import Mathlib

/-!
Shallow embedding of the argus backend core (indicator engine, signal
detector, daily-to-weekly resampler, screener) over exact rationals.

Conventions of the embedding:
* Python floats become `ℚ`; a pandas `NaN` slot becomes `Option ℚ` with
  `none` for NaN/absent.
* Bar sequences are assumed timestamp-sorted at every entry point, as the
  data model requires, so the defensive `df.sort_index()` of
  `ohlcv_to_dataframe` is the identity and is not repeated here.
* Python `round(x, n)` (round-half-to-even on the scaled value) becomes
  `rhe`-based rounding below.
* `datetime.isocalendar()` is embedded by translating CPython's
  proleptic-Gregorian ordinal arithmetic (`_ymd2ord`, `_isoweek1monday`).
-/

namespace Argus

/-- Round-half-to-even of a rational to an integer, the rounding mode of
Python's builtin `round`. -/
def rhe (q : ℚ) : ℤ :=
  let f := ⌊q⌋
  let r := q - (f : ℚ)
  if r < 1/2 then f
  else if 1/2 < r then f + 1
  else if f % 2 = 0 then f else f + 1

/-- Python `round(x, 2)`. -/
def round2 (q : ℚ) : ℚ := (rhe (q * 100) : ℚ) / 100

/-- Python `round(x, 4)`. -/
def round4 (q : ℚ) : ℚ := (rhe (q * 10000) : ℚ) / 10000

theorem abs_rhe_sub_le (q : ℚ) : |(rhe q : ℚ) - q| ≤ 1/2 := by
  unfold rhe
  have h0 : (0:ℚ) ≤ q - (⌊q⌋ : ℚ) := by
    have := Int.floor_le q; linarith
  have h1 : q - (⌊q⌋ : ℚ) < 1 := by
    have := Int.lt_floor_add_one q; linarith
  by_cases hlt : q - (⌊q⌋ : ℚ) < 1/2
  · simp only [hlt, if_true]
    rw [abs_sub_comm, abs_of_nonneg h0]; linarith
  · by_cases hgt : (1:ℚ)/2 < q - (⌊q⌋ : ℚ)
    · simp only [hlt, hgt, if_false, if_true]
      push_cast
      rw [abs_of_nonneg (by linarith)]; linarith
    · have heq : q - (⌊q⌋ : ℚ) = 1/2 := le_antisymm (not_lt.mp hgt) (not_lt.mp hlt)
      by_cases hpar : ⌊q⌋ % 2 = 0
      · simp only [hlt, hgt, hpar, if_false, if_true]
        rw [abs_sub_comm, abs_of_nonneg h0]; linarith
      · simp only [hlt, hgt, hpar, if_false]
        push_cast
        rw [abs_of_nonneg (by linarith)]; linarith

theorem abs_round4_sub_le (q : ℚ) : |round4 q - q| ≤ 1/20000 := by
  have h := abs_rhe_sub_le (q * 10000)
  have h2 : round4 q - q = ((rhe (q * 10000) : ℚ) - q * 10000) / 10000 := by
    unfold round4; ring
  rw [h2, abs_div, abs_of_pos (show (0:ℚ) < 10000 by norm_num)]
  rw [div_le_iff₀ (by norm_num : (0:ℚ) < 10000)]
  calc |(rhe (q * 10000) : ℚ) - q * 10000| ≤ 1/2 := h
    _ = 1/20000 * 10000 := by norm_num

/-! ### Dates and the ISO calendar (CPython `datetime` arithmetic) -/

/-- A calendar date (the date part of a timezone-aware timestamp; only the
date enters the weekly grouping logic). -/
structure Date where
  year : Int
  month : Int
  day : Int
deriving DecidableEq, Repr

/-- CPython `_is_leap`. -/
def isLeap (y : Int) : Bool :=
  y % 4 = 0 && (y % 100 != 0 || y % 400 = 0)

/-- CPython `_DAYS_BEFORE_MONTH` table. -/
def daysBeforeMonthTable (m : Int) : Int :=
  if m = 1 then 0 else if m = 2 then 31 else if m = 3 then 59
  else if m = 4 then 90 else if m = 5 then 120 else if m = 6 then 151
  else if m = 7 then 181 else if m = 8 then 212 else if m = 9 then 243
  else if m = 10 then 273 else if m = 11 then 304 else if m = 12 then 334
  else 0

/-- CPython `_days_before_month`. -/
def daysBeforeMonth (y m : Int) : Int :=
  daysBeforeMonthTable m + (if 2 < m ∧ isLeap y then 1 else 0)

/-- CPython `_days_before_year`. -/
def daysBeforeYear (y : Int) : Int :=
  (y - 1) * 365 + (y - 1).fdiv 4 - (y - 1).fdiv 100 + (y - 1).fdiv 400

/-- CPython `_ymd2ord`: proleptic Gregorian ordinal, day 1 = 0001-01-01. -/
def ymd2ord (d : Date) : Int :=
  daysBeforeYear d.year + daysBeforeMonth d.year d.month + d.day

/-- CPython `_isoweek1monday`. -/
def isoweek1monday (y : Int) : Int :=
  let firstday := daysBeforeYear y + 1
  let firstweekday := (firstday + 6).fmod 7
  let week1monday := firstday - firstweekday
  if 3 < firstweekday then week1monday + 7 else week1monday

/-- The `(ISO year, ISO week)` pair of `date.isocalendar()`, the weekly
grouping key of the resampler. -/
def isoKey (d : Date) : Int × Int :=
  let today := ymd2ord d
  let week := (today - isoweek1monday d.year).fdiv 7
  if week < 0 then
    (d.year - 1, (today - isoweek1monday (d.year - 1)).fdiv 7 + 1)
  else if 52 ≤ week ∧ isoweek1monday (d.year + 1) ≤ today then
    (d.year + 1, 1)
  else
    (d.year, week + 1)

/-! ### Data model -/

/-- `app.models.stock.OHLCV` (the Python field `open` is spelled `open_`
because `open` is a Lean keyword). -/
structure OHLCV where
  timestamp : Date
  open_ : ℚ
  high : ℚ
  low : ℚ
  close : ℚ
  volume : Int
deriving DecidableEq, Repr

/-- The four weekly moving-average windows (`MA_PERIOD_MAP` keys /
`MAFilter` enum values). -/
inductive MAPeriod where
  | w20
  | w50
  | w100
  | w200
deriving DecidableEq, Repr

/-- `MA_PERIOD_MAP`: weekly window to daily bar count. -/
def MAPeriod.days : MAPeriod → Nat
  | .w20 => 100
  | .w50 => 250
  | .w100 => 500
  | .w200 => 1000

/-! ### Rolling mean (pandas `rolling(window=period, min_periods=period).mean()`)

The rolling computation is embedded operationally: the fold keeps the most
recent observations (at most `period` of them) and emits the mean exactly
when a full window has accumulated, `none` (NaN) before that. -/

/-- One streaming pass of the rolling mean; `seenRev` holds the
observations seen so far, most recent first, truncated to `period`. -/
def rollMeanGo (period : Nat) (seenRev : List ℚ) : List ℚ → List (Option ℚ)
  | [] => []
  | x :: rest =>
    let sr := (x :: seenRev).take period
    (if sr.length = period then some (sr.sum / (period : ℚ)) else none)
      :: rollMeanGo period sr rest

/-- `Series.rolling(window=period, min_periods=period).mean()`. -/
def rollMean (xs : List ℚ) (period : Nat) : List (Option ℚ) :=
  rollMeanGo period [] xs

/-- `MAType` (`app.models.indicator`). -/
inductive MAType where
  | sma
  | ema
deriving DecidableEq, Repr

/-- `ewm(span, adjust=False)` recursion after the seed value. -/
def ewmFrom (alpha : ℚ) (e : ℚ) : List ℚ → List ℚ
  | [] => []
  | p :: ps =>
    let e2 := alpha * p + (1 - alpha) * e
    e2 :: ewmFrom alpha e2 ps

/-- `Series.ewm(span=span, adjust=False).mean()`: `y0 = x0`,
`yt = alpha*xt + (1-alpha)*y(t-1)` with `alpha = 2/(span+1)`; every
position holds a value. -/
def ewmMean (xs : List ℚ) (span : Nat) : List ℚ :=
  match xs with
  | [] => []
  | p :: ps => p :: ewmFrom (2 / ((span : ℚ) + 1)) p ps

/-- `ewm(span, adjust=False, min_periods=period).mean()`: same recursion,
but NaN until `period` observations have accumulated. -/
def ewmMeanMasked (xs : List ℚ) (period : Nat) : List (Option ℚ) :=
  (ewmMean xs period).zipWith
    (fun v i => if period ≤ i + 1 then some v else none)
    (List.range (ewmMean xs period).length)

/-- `IndicatorCalculator.moving_average`. -/
def moving_average (prices : List ℚ) (period : Nat) (ma_type : MAType) :
    List (Option ℚ) :=
  match ma_type with
  | .sma => rollMean prices period
  | .ema => ewmMeanMasked prices period

/-! ### Indicator engine (`app.core.indicators`) -/

/-- `app.models.indicator.MovingAverageResult`. -/
structure MovingAverageResult where
  period : Nat
  ma_type : MAType
  values : List (Date × Option ℚ)
  current_value : Option ℚ
  current_price : Option ℚ
  distance_percent : Option ℚ
deriving Repr

/-- `IndicatorCalculator.calculate_ma_result`.  Python truthiness: the
guards `if current_ma ...` treat both `None` and `0.0` as false, so a
moving average or price of exactly zero yields `None` fields. -/
def calculate_ma_result (bars : List OHLCV) (period : Nat) (ma_type : MAType) :
    MovingAverageResult :=
  if bars.isEmpty ∨ bars.length < period then
    ⟨period, ma_type, [], none, none, none⟩
  else
    let closes := bars.map (·.close)
    let ma_series := moving_average closes period ma_type
    let values := (bars.map (·.timestamp)).zip (ma_series.map (·.map round2))
    let current_ma : Option ℚ := (ma_series.getLast?).bind id
    let current_price : Option ℚ := closes.getLast?
    let ma_truthy : Option ℚ := current_ma.bind (fun m => if m = 0 then none else some m)
    let price_truthy : Option ℚ := current_price.bind (fun p => if p = 0 then none else some p)
    let distance_pct : Option ℚ :=
      match ma_truthy, price_truthy with
      | some m, some p => some (round2 ((p - m) / m * 100))
      | _, _ => none
    ⟨period, ma_type, values, ma_truthy.map round2, price_truthy.map round2, distance_pct⟩

/-- `prices.diff()`: NaN at position 0, consecutive difference after. -/
def diffList (xs : List ℚ) : List (Option ℚ) :=
  match xs with
  | [] => []
  | _ :: _ => none :: xs.zipWith (fun a b => some (b - a)) xs.tail

/-- `delta.where(delta > 0, 0.0)`: the NaN head compares false and is
replaced by `0.0`. -/
def gainsOf (xs : List ℚ) : List ℚ :=
  (diffList xs).map (fun d => match d with
    | some v => if 0 < v then v else 0
    | none => 0)

/-- `(-delta).where(delta < 0, 0.0)`. -/
def lossesOf (xs : List ℚ) : List ℚ :=
  (diffList xs).map (fun d => match d with
    | some v => if v < 0 then -v else 0
    | none => 0)

/-- The RSI formula applied to one (avg_gain, avg_loss) pair, with the
float special cases made explicit: `rs = g/l` is `inf` when `l = 0 < g`
(so `100 - 100/(1+rs) = 100`) and NaN when `g = l = 0`, which the
`flat_mask` then overrides to the neutral 50. -/
def rsiVal (g l : ℚ) : ℚ :=
  if g = 0 ∧ l = 0 then 50
  else if l = 0 then 100
  else 100 - 100 / (1 + g / l)

/-- `IndicatorCalculator.rsi`. -/
def rsi (prices : List ℚ) (period : Nat) : List (Option ℚ) :=
  let avg_gain := rollMean (gainsOf prices) period
  let avg_loss := rollMean (lossesOf prices) period
  avg_gain.zipWith
    (fun g? l? => match g?, l? with
      | some g, some l => some (rsiVal g l)
      | _, _ => none)
    avg_loss

/-- `IndicatorCalculator.macd`: (MACD line, signal line, histogram). -/
def macd (prices : List ℚ) (fast_period slow_period signal_period : Nat) :
    List ℚ × List ℚ × List ℚ :=
  let fast_ema := ewmMean prices fast_period
  let slow_ema := ewmMean prices slow_period
  let macd_line := fast_ema.zipWith (· - ·) slow_ema
  let signal_line := ewmMean macd_line signal_period
  let histogram := macd_line.zipWith (· - ·) signal_line
  (macd_line, signal_line, histogram)

/-- `app.models.indicator.MACDResult`. -/
structure MACDResult where
  fast_period : Nat
  slow_period : Nat
  signal_period : Nat
  macd_line : List (Date × Option ℚ)
  signal_line : List (Date × Option ℚ)
  histogram : List (Date × Option ℚ)
  current_macd : Option ℚ
  current_signal : Option ℚ
  current_histogram : Option ℚ
deriving Repr

/-- `IndicatorCalculator.calculate_macd_result`.  An `adjust=False` ewm of
a NaN-free series is NaN-free, so every `pd.notna` test passes and every
emitted value is `some` of the 4-decimal rounding. -/
def calculate_macd_result (bars : List OHLCV)
    (fast_period slow_period signal_period : Nat) : MACDResult :=
  if bars.isEmpty ∨ bars.length < slow_period + signal_period then
    ⟨fast_period, slow_period, signal_period, [], [], [], none, none, none⟩
  else
    let closes := bars.map (·.close)
    let mls := macd closes fast_period slow_period signal_period
    let ml := mls.1
    let sl := mls.2.1
    let hist := mls.2.2
    let series_to_tuples := fun (s : List ℚ) =>
      (bars.map (·.timestamp)).zip (s.map (fun v => some (round4 v)))
    ⟨fast_period, slow_period, signal_period,
      series_to_tuples ml, series_to_tuples sl, series_to_tuples hist,
      (ml.getLast?).map round4, (sl.getLast?).map round4, (hist.getLast?).map round4⟩

/-! ### Signal detection (`app.core.signals`) -/

/-- `app.models.signal.SignalType`. -/
inductive SignalType where
  | ma_crossover_bullish
  | ma_crossover_bearish
  | rsi_oversold
  | rsi_overbought
  | macd_bullish_cross
  | macd_bearish_cross
  | near_52w_high
  | near_52w_low
  | new_52w_high
  | new_52w_low
deriving DecidableEq, Repr

/-- One iteration of the crossover scan: the pair of bars at positions
`prev`/`curr`, comparing close against the MA.  A NaN MA value compares
false in Python, so a missing MA yields no signal from the pair. -/
def crossAt (closes : List ℚ) (ma : List (Option ℚ)) (prev curr : Nat) :
    Option SignalType :=
  match closes.get? prev, closes.get? curr, ma.get? prev, ma.get? curr with
  | some prev_close, some curr_close, some (some prev_ma), some (some curr_ma) =>
    if prev_close < prev_ma ∧ curr_ma < curr_close then
      some .ma_crossover_bullish
    else if prev_ma < prev_close ∧ curr_close < curr_ma then
      some .ma_crossover_bearish
    else none
  | _, _, _, _ => none

/-- `SignalDetector.detect_ma_crossover`.  The loop
`for i in range(-lookback, 0)` visits the pairs `(n-lookback+k-1,
n-lookback+k)` for `k = 0..lookback-1`, oldest first, returning at the
first hit; `findSome?` is that early-exit scan. -/
def detect_ma_crossover (ohlcv_list : List OHLCV) (ma_period : MAPeriod)
    (lookback : Nat) : Option SignalType :=
  let period := ma_period.days
  if ohlcv_list.length < period + lookback then none
  else
    let closes := ohlcv_list.map (·.close)
    let n := closes.length
    let ma := moving_average closes period .sma
    match ma.get? (n - 1), ma.get? (n - 2) with
    | some (some _), some (some _) =>
      (List.range lookback).findSome?
        (fun k => crossAt closes ma (n - lookback + k - 1) (n - lookback + k))
    | _, _ => none

/-- `SignalDetector.detect_rsi_signal` (default thresholds 30/70). -/
def detect_rsi_signal (ohlcv_list : List OHLCV)
    (oversold_threshold overbought_threshold : ℚ) : Option SignalType :=
  if ohlcv_list.length < 15 then none
  else
    let closes := ohlcv_list.map (·.close)
    let r := rsi closes 14
    match r.get? (r.length - 1) with
    | some (some current_rsi) =>
      let prev_rsi :=
        match r.get? (r.length - 2) with
        | some (some p) => p
        | _ => current_rsi
      if oversold_threshold ≤ prev_rsi ∧ current_rsi < oversold_threshold then
        some .rsi_oversold
      else if prev_rsi ≤ overbought_threshold ∧ overbought_threshold < current_rsi then
        some .rsi_overbought
      else none
    | _ => none

/-- `SignalDetector.detect_macd_signal`.  The `ewm(adjust=False)` series
have a value at every position, so the `isna` guards never fire and the
four `iloc` reads are direct list lookups. -/
def detect_macd_signal (ohlcv_list : List OHLCV) : Option SignalType :=
  if ohlcv_list.length < 35 then none
  else
    let closes := ohlcv_list.map (·.close)
    let mls := macd closes 12 26 9
    let macd_line := mls.1
    let signal_line := mls.2.1
    let n := macd_line.length
    match macd_line.get? (n - 1), signal_line.get? (n - 1),
        macd_line.get? (n - 2), signal_line.get? (n - 2) with
    | some curr_macd, some curr_signal, some prev_macd, some prev_signal =>
      if prev_macd < prev_signal ∧ curr_signal < curr_macd then
        some .macd_bullish_cross
      else if prev_signal < prev_macd ∧ curr_macd < curr_signal then
        some .macd_bearish_cross
      else none
    | _, _, _, _ => none

/-- `SignalDetector.detect_52w_signals`.  `if high_52w:` is Python
truthiness: `None` and `0.0` both skip the block.  The high-side and
low-side blocks append independently, high side first. -/
def detect_52w_signals (current_price : ℚ) (high_52w low_52w : Option ℚ)
    (threshold_pct : ℚ) : List SignalType :=
  let highSignals :=
    match high_52w with
    | some h =>
      if h = 0 then []
      else if h ≤ current_price then [SignalType.new_52w_high]
      else if (h - current_price) / h * 100 ≤ threshold_pct then
        [SignalType.near_52w_high]
      else []
    | none => []
  let lowSignals :=
    match low_52w with
    | some l =>
      if l = 0 then []
      else if current_price ≤ l then [SignalType.new_52w_low]
      else if (current_price - l) / l * 100 ≤ threshold_pct then
        [SignalType.near_52w_low]
      else []
    | none => []
  highSignals ++ lowSignals

/-- The structured `details` dict attached to each emitted signal, one
variant per construction site in `detect_all_signals`. -/
inductive Details where
  | maInfo (ma_period : MAPeriod)
  | rsiInfo (rsi_value : ℚ) (threshold : ℚ)
  | macdInfo (macdV : ℚ) (signalV : ℚ)
  | week52Info (high_52w : Option ℚ) (low_52w : Option ℚ) (current : ℚ)
deriving DecidableEq, Repr

/-- `app.models.signal.SignalCreate`. -/
structure SignalCreate where
  symbol : String
  signal_type : SignalType
  price : ℚ
  details : Details
deriving DecidableEq, Repr

/-- `SignalDetector.detect_all_signals`.  `current_price` is the last
close (or `None` on an empty list); `if not current_price:` also treats a
last close of exactly `0.0` as falsy and returns the empty batch. -/
def detect_all_signals (symbol : String) (ohlcv_list : List OHLCV)
    (high_52w low_52w : Option ℚ) : List SignalCreate :=
  let current_price : Option ℚ := (ohlcv_list.getLast?).map (·.close)
  match current_price with
  | none => []
  | some cp =>
    if cp = 0 then []
    else
      let maSignals :=
        [MAPeriod.w20, MAPeriod.w50, MAPeriod.w100, MAPeriod.w200].filterMap
          (fun mp => (detect_ma_crossover ohlcv_list mp 2).map
            (fun st => SignalCreate.mk symbol st cp (Details.maInfo mp)))
      let rsiSignals :=
        match detect_rsi_signal ohlcv_list 30 70 with
        | some st =>
          let r := rsi (ohlcv_list.map (·.close)) 14
          let rsiLast := ((r.getLast?).bind id).getD 0
          [SignalCreate.mk symbol st cp
            (Details.rsiInfo (round2 rsiLast)
              (if st = SignalType.rsi_oversold then 30 else 70))]
        | none => []
      let macdSignals :=
        match detect_macd_signal ohlcv_list with
        | some st =>
          let mls := macd (ohlcv_list.map (·.close)) 12 26 9
          [SignalCreate.mk symbol st cp
            (Details.macdInfo (round4 ((mls.1.getLast?).getD 0))
              (round4 ((mls.2.1.getLast?).getD 0)))]
        | none => []
      let weekSignals :=
        (detect_52w_signals cp high_52w low_52w 5).map
          (fun st => SignalCreate.mk symbol st cp
            (Details.week52Info high_52w low_52w cp))
      maSignals ++ rsiSignals ++ macdSignals ++ weekSignals

/-- A persisted row of the `signals` table (`app.models.db.SignalRecord`).
Timestamps are Unix seconds; the random `uuid4` id is supplied by the
caller of `save_signal`, since the embedding is deterministic. -/
structure SignalRecord where
  id : String
  symbol : String
  signal_type : SignalType
  timestamp : Int
  price : ℚ
  details : Details
deriving DecidableEq, Repr

/-- `app.models.signal.Signal`. -/
structure Signal where
  id : String
  symbol : String
  signal_type : SignalType
  timestamp : Int
  price : ℚ
  details : Details
  created_at : Int
deriving DecidableEq, Repr

/-- `SignalDetector.save_signal`: the durable store is modelled as the
list of its rows, in insertion order; the dedupe query
(`symbol = s AND signal_type = t AND timestamp >= since`) is a `find?`
over it (at most one row can match while every write goes through this
function).  Returns the accepted signal (or `None`) and the new store. -/
def save_signal (store : List SignalRecord) (signal : SignalCreate)
    (now : Int) (new_id : String) (dedupe_hours : Int) :
    Option Signal × List SignalRecord :=
  let since := now - dedupe_hours * 3600
  let existing := store.find? (fun r =>
    r.symbol = signal.symbol ∧ r.signal_type = signal.signal_type ∧
      since ≤ r.timestamp)
  match existing with
  | some _ => (none, store)
  | none =>
    let signal_record : SignalRecord :=
      ⟨new_id, signal.symbol, signal.signal_type, now, signal.price,
        signal.details⟩
    (some ⟨new_id, signal.symbol, signal.signal_type, now, signal.price,
        signal.details, now⟩,
      store ++ [signal_record])

/-! ### Daily-to-weekly resampler (`app.api.v1.stock`) -/

/-- One step of the `weekly[key].append(bar)` dict build: append to the
entry for `k` if present (dicts preserve insertion position), else add a
fresh singleton group at the end (dicts append new keys). -/
def insertGroup (m : List ((Int × Int) × List OHLCV)) (k : Int × Int)
    (b : OHLCV) : List ((Int × Int) × List OHLCV) :=
  match m with
  | [] => [(k, [b])]
  | kv :: rest =>
    if kv.1 = k then (kv.1, kv.2 ++ [b]) :: rest
    else kv :: insertGroup rest k b

/-- The `weekly` dict of `_resample_to_weekly`, keyed by `(iso.year,
iso.week)`, as an insertion-ordered association list. -/
def groupWeekly (ohlcv : List OHLCV) : List ((Int × Int) × List OHLCV) :=
  ohlcv.foldl (fun m b => insertGroup m (isoKey b.timestamp) b) []

/-- Python tuple comparison on `(year, week)` keys. -/
def keyLe (a b : Int × Int) : Prop :=
  a.1 < b.1 ∨ (a.1 = b.1 ∧ a.2 ≤ b.2)

/-- Strict version of `keyLe`, for stating the ascending-emission order. -/
def keyLt (a b : Int × Int) : Prop :=
  a.1 < b.1 ∨ (a.1 = b.1 ∧ a.2 < b.2)

instance : DecidableRel keyLe := fun a b => by unfold keyLe; infer_instance

instance : DecidableRel keyLt := fun a b => by unfold keyLt; infer_instance

/-- `keyLe` lifted to dict entries, for sorting groups by key. -/
def groupLe (a b : (Int × Int) × List OHLCV) : Prop := keyLe a.1 b.1

instance : DecidableRel groupLe := fun a b => by unfold groupLe; infer_instance

instance : IsTotal ((Int × Int) × List OHLCV) groupLe :=
  ⟨fun a b => by unfold groupLe keyLe; omega⟩

instance : IsTrans ((Int × Int) × List OHLCV) groupLe :=
  ⟨fun a b c hab hbc => by unfold groupLe keyLe at *; omega⟩

/-- The weekly aggregate of one group (`bars` is nonempty whenever it
comes out of `groupWeekly`; the `[]` case is unreachable filler):
open of the first bar, close/timestamp of the last, max high, min low,
summed volume. -/
def aggWeek : List OHLCV → OHLCV
  | [] => ⟨⟨0, 1, 1⟩, 0, 0, 0, 0, 0⟩
  | b :: rest =>
    let lastBar := (b :: rest).getLast (by simp)
    ⟨lastBar.timestamp, b.open_,
      rest.foldl (fun a x => max a x.high) b.high,
      rest.foldl (fun a x => min a x.low) b.low,
      lastBar.close,
      ((b :: rest).map (·.volume)).sum⟩

/-- `_resample_to_weekly`.  `for key in sorted(weekly.keys())` over a dict
with distinct keys is the association list sorted by key. -/
def resample_to_weekly (ohlcv : List OHLCV) : List OHLCV :=
  if ohlcv = [] then []
  else ((groupWeekly ohlcv).insertionSort groupLe).map (fun kv => aggWeek kv.2)

/-- One step of the `grouped[(iso.year, iso.week)] = (dt, value)` build:
overwrite in place, or append a new key. -/
def upsertSeries (m : List ((Int × Int) × (Date × Option ℚ)))
    (k : Int × Int) (v : Date × Option ℚ) :
    List ((Int × Int) × (Date × Option ℚ)) :=
  match m with
  | [] => [(k, v)]
  | kv :: rest =>
    if kv.1 = k then (k, v) :: rest
    else kv :: upsertSeries rest k v

/-- The `grouped` dict of `_resample_series_to_week`: last write wins per
ISO-week key. -/
def groupSeries (series : List (Date × Option ℚ)) :
    List ((Int × Int) × (Date × Option ℚ)) :=
  series.foldl (fun m e => upsertSeries m (isoKey e.1) e) []

/-- Dict lookup in an association list (keys are distinct by
construction). -/
def lookupG {α : Type} (k : Int × Int) (m : List ((Int × Int) × α)) :
    Option α :=
  (m.find? (fun kv => kv.1 = k)).map (·.2)

/-- `_resample_series_to_week`.  Series entries are already typed
`(Date, Option ℚ)`, so the `isinstance`/`_to_datetime` guards always
pass.  Each output slot carries the week-end date and the stored value
for that week, `none` when the week has no entry. -/
def resample_series_to_week (series : List (Date × Option ℚ))
    (week_keys : List (Int × Int)) (week_dates : List Date) :
    List (Date × Option ℚ) :=
  let grouped := groupSeries series
  (week_keys.zip week_dates).map (fun kd =>
    match lookupG kd.1 grouped with
    | some dv => (kd.2, dv.2)
    | none => (kd.2, none))

/-- The caller side (`_resample_indicators_to_weekly`): `week_keys` and
`week_dates` are read off the weekly OHLCV bars. -/
def alignSeriesToWeekly (series : List (Date × Option ℚ))
    (weekly_ohlcv : List OHLCV) : List (Date × Option ℚ) :=
  resample_series_to_week series
    (weekly_ohlcv.map (fun b => isoKey b.timestamp))
    (weekly_ohlcv.map (·.timestamp))

/-! ### Screener (`app.core.screener`) -/

/-- The `position` strings of a screener row. -/
inductive Position where
  | above
  | below
  | at_
deriving DecidableEq, Repr

/-- `app.models.screener.SortField`. -/
inductive SortField where
  | symbol
  | name
  | price
  | distance
  | market_cap
  | change
deriving DecidableEq, Repr

/-- `app.models.screener.SortOrder`. -/
inductive SortOrder where
  | asc
  | desc
deriving DecidableEq, Repr

/-- `app.models.screener.ScreenerResult`. -/
structure ScreenerResult where
  symbol : String
  name : String
  sector : Option String
  price : ℚ
  change : ℚ
  change_percent : ℚ
  market_cap : Option Int
  ma_value : ℚ
  ma_period : MAPeriod
  distance : ℚ
  distance_percent : ℚ
  position : Position
deriving DecidableEq, Repr

/-- `app.models.screener.ScreenerRequest`. -/
structure ScreenerRequest where
  ma_filter : MAPeriod
  distance_pct : ℚ
  include_below : Bool
  include_above : Bool
  sort_by : SortField
  sort_order : SortOrder
  limit : Nat
  offset : Nat
deriving DecidableEq, Repr

/-- The position classification of `_process_stock`. -/
def classify_position (distance_pct : ℚ) : Position :=
  if |distance_pct| < 1/2 then .at_
  else if 0 < distance_pct then .above
  else .below

/-- `_get_sort_key`: the sort key value comparison for one field
(Python compares the key values with `<`/`≤`; `market_cap or 0` maps an
absent cap to 0). -/
def sort_key_le (sort_by : SortField) (a b : ScreenerResult) : Prop :=
  match sort_by with
  | .symbol => a.symbol ≤ b.symbol
  | .name => a.name ≤ b.name
  | .price => a.price ≤ b.price
  | .distance => |a.distance_percent| ≤ |b.distance_percent|
  | .market_cap => a.market_cap.getD 0 ≤ b.market_cap.getD 0
  | .change => a.change_percent ≤ b.change_percent

/-- `sorted(key=..., reverse=...)`: `reverse=True` sorts by the flipped
comparison (stably, like Python's sort). -/
def row_le (sort_by : SortField) (sort_order : SortOrder)
    (a b : ScreenerResult) : Prop :=
  match sort_order with
  | .asc => sort_key_le sort_by a b
  | .desc => sort_key_le sort_by b a

instance (f : SortField) : DecidableRel (sort_key_le f) := fun a b => by
  unfold sort_key_le
  cases f <;> infer_instance

instance (f : SortField) (o : SortOrder) : DecidableRel (row_le f o) :=
  fun a b => by unfold row_le; cases o <;> infer_instance

/-- The distance/position filter loop of `ScreenerService.screen`, with
its three `continue` conditions. -/
def screen_filter (valid_results : List ScreenerResult)
    (request : ScreenerRequest) : List ScreenerResult :=
  valid_results.filter (fun r =>
    ¬(request.distance_pct < |r.distance_percent|) ∧
    ¬(r.position = Position.below ∧ request.include_below = false) ∧
    ¬((r.position = Position.above ∨ r.position = Position.at_) ∧
        request.include_above = false))

/-- The pure tail of `ScreenerService.screen` after the per-symbol
gather: filter, stable sort, then paginate; returns the page and the
pre-pagination total. -/
def screen_page (valid_results : List ScreenerResult)
    (request : ScreenerRequest) : List ScreenerResult × Nat :=
  let filtered := screen_filter valid_results request
  let sorted := filtered.insertionSort (row_le request.sort_by request.sort_order)
  ((sorted.drop request.offset).take request.limit, sorted.length)

/-! ### Rolling-mean characterization -/

/-- Stated from the spec's words: at a position with at least `period`
observations, the arithmetic mean of the last `period` values ending
there; absent for the first `period − 1` positions. -/
def meanOfLastWindow (xs : List ℚ) (period i : Nat) : Option ℚ :=
  if period ≤ i + 1 then
    some (((xs.take (i + 1)).drop (i + 1 - period)).sum / (period : ℚ))
  else none

theorem rollMeanGo_length (period : Nat) (s rest : List ℚ) :
    (rollMeanGo period s rest).length = rest.length := by
  induction rest generalizing s with
  | nil => rfl
  | cons x rest2 ih => simp [rollMeanGo, ih]

theorem rollMean_length (xs : List ℚ) (period : Nat) :
    (rollMean xs period).length = xs.length :=
  rollMeanGo_length period [] xs

theorem rollMeanGo_get? (period : Nat) (hp : 1 ≤ period) (rest : List ℚ) :
    ∀ (pfx : List ℚ) (i : Nat), i < rest.length →
      (rollMeanGo period (pfx.reverse.take period) rest).get? i
        = some (meanOfLastWindow (pfx ++ rest) period (pfx.length + i)) := by
  induction rest with
  | nil => intro pfx i h; simp at h
  | cons x rest2 ih =>
    intro pfx i hi
    obtain ⟨p, rfl⟩ : ∃ p, period = p + 1 := ⟨period - 1, by omega⟩
    have hsr : (x :: (pfx.reverse.take (p + 1))).take (p + 1)
        = (pfx ++ [x]).reverse.take (p + 1) := by
      simp [List.take_succ_cons, List.take_take]
    simp only [rollMeanGo, hsr]
    match i with
    | 0 =>
      simp only [List.get?]
      have hcond : (((pfx ++ [x]).reverse.take (p + 1)).length = p + 1)
          ↔ (p + 1 ≤ pfx.length + 1) := by
        simp only [List.length_take, List.length_reverse, List.length_append,
          List.length_cons, List.length_nil]
        omega
      have hsum : ((pfx ++ [x]).reverse.take (p + 1)).sum
          = (((pfx ++ (x :: rest2)).take (pfx.length + 1)).drop
              (pfx.length + 1 - (p + 1))).sum := by
        rw [List.take_reverse, List.sum_reverse]
        have ht : (pfx ++ (x :: rest2)).take (pfx.length + 1) = pfx ++ [x] := by
          have := @List.take_append _ pfx (x :: rest2) 1
          simpa using this
        rw [ht]
        simp
      unfold meanOfLastWindow
      by_cases hc : p + 1 ≤ pfx.length + 1
      · rw [if_pos (hcond.mpr hc), if_pos (by omega)]
        rw [hsum]
      · rw [if_neg (fun h => hc (hcond.mp h)), if_neg (by omega)]
    | Nat.succ j =>
      have hj : j < rest2.length := by simpa using hi
      have := ih (pfx ++ [x]) j hj
      simp only [List.get?]
      rw [this]
      have h1 : pfx ++ [x] ++ rest2 = pfx ++ x :: rest2 := by simp
      have h2 : (pfx ++ [x]).length + j = pfx.length + (j + 1) := by
        simp only [List.length_append, List.length_cons, List.length_nil]
        omega
      rw [h1, h2]

theorem rollMean_get? (xs : List ℚ) (period i : Nat) (hp : 1 ≤ period)
    (hi : i < xs.length) :
    (rollMean xs period).get? i = some (meanOfLastWindow xs period i) := by
  have := rollMeanGo_get? period hp xs [] i (by simpa using hi)
  simpa [rollMean] using this

theorem rollMean_nonneg (xs : List ℚ) (period i : Nat) (v : ℚ)
    (hp : 1 ≤ period) (hx : ∀ x ∈ xs, 0 ≤ x)
    (h : (rollMean xs period).get? i = some (some v)) : 0 ≤ v := by
  by_cases hi : i < xs.length
  · rw [rollMean_get? xs period i hp hi] at h
    unfold meanOfLastWindow at h
    by_cases hc : period ≤ i + 1
    · rw [if_pos hc] at h
      have hv : v = ((xs.take (i + 1)).drop (i + 1 - period)).sum / (period : ℚ) := by
        injection h with h1
        injection h1 with h2
        exact h2.symm
      rw [hv]
      apply div_nonneg
      · apply List.sum_nonneg
        intro x hxmem
        exact hx x (List.mem_of_mem_take (List.mem_of_mem_drop hxmem))
      · positivity
    · rw [if_neg hc] at h
      simp at h
  · have : (rollMean xs period).get? i = none := by
      rw [List.get?_eq_none]
      rw [rollMean_length]
      omega
    rw [this] at h
    simp at h

/-! ### C3: simple moving average -/

/-- Five daily bars with closes 10, 20, 30, 40, 50. -/
def exBars5 : List OHLCV :=
  [⟨⟨2024, 1, 1⟩, 10, 10, 10, 10, 1⟩,
   ⟨⟨2024, 1, 2⟩, 20, 20, 20, 20, 1⟩,
   ⟨⟨2024, 1, 3⟩, 30, 30, 30, 30, 1⟩,
   ⟨⟨2024, 1, 4⟩, 40, 40, 40, 40, 1⟩,
   ⟨⟨2024, 1, 5⟩, 50, 50, 50, 50, 1⟩]

/-- C3: the simple moving average of window `period` equals the
arithmetic mean of the last `period` closes at each position with at
least `period` observations and is absent for the first `period − 1`
positions (`meanOfLastWindow` spells out exactly that); and SMA(3) over
closes [10,20,30,40,50] yields absent, absent, 20, 30, 40 at the result
boundary. -/
theorem C3_sma_window_mean :
    (∀ (closes : List ℚ) (period i : Nat), 1 ≤ period → i < closes.length →
      (moving_average closes period MAType.sma).get? i
        = some (meanOfLastWindow closes period i))
    ∧ (calculate_ma_result exBars5 3 MAType.sma).values.map Prod.snd
        = [none, none, some 20, some 30, some 40] := by
  constructor
  · intro closes period i hp hi
    exact rollMean_get? closes period i hp hi
  · norm_num [calculate_ma_result, moving_average, rollMean, rollMeanGo,
      exBars5, round2, rhe, List.zip]

/-- Witness for C3 at closes [10,20,30,40,50], period 3, position 2. -/
theorem C3_witness :
    (moving_average [10, 20, 30, 40, 50] 3 MAType.sma).get? 2 = some (some 20) := by
  have h := C3_sma_window_mean.1 [10, 20, 30, 40, 50] 3 2 (by decide) (by decide)
  rw [h]
  norm_num [meanOfLastWindow]

/-! ### C1: RSI bounds and edge policy -/

theorem gainsOf_nonneg (xs : List ℚ) : ∀ x ∈ gainsOf xs, 0 ≤ x := by
  intro x hx
  unfold gainsOf at hx
  rw [List.mem_map] at hx
  obtain ⟨d, _, rfl⟩ := hx
  cases d with
  | none => simp
  | some v =>
    simp only []
    split_ifs with h
    · linarith
    · simp

theorem lossesOf_nonneg (xs : List ℚ) : ∀ x ∈ lossesOf xs, 0 ≤ x := by
  intro x hx
  unfold lossesOf at hx
  rw [List.mem_map] at hx
  obtain ⟨d, _, rfl⟩ := hx
  cases d with
  | none => simp
  | some v =>
    simp only []
    split_ifs with h
    · linarith
    · simp

theorem rsi_get?_eq (prices : List ℚ) (period i : Nat) (v : ℚ)
    (h : (rsi prices period).get? i = some (some v)) :
    ∃ g l, (rollMean (gainsOf prices) period).get? i = some (some g) ∧
      (rollMean (lossesOf prices) period).get? i = some (some l) ∧
      v = rsiVal g l := by
  unfold rsi at h
  rw [List.get?_zipWith_eq_some] at h
  obtain ⟨x, y, hx, hy, hf⟩ := h
  match x, y with
  | none, none => simp at hf
  | none, some _ => simp at hf
  | some _, none => simp at hf
  | some g, some l =>
    refine ⟨g, l, hx, hy, ?_⟩
    simp only [] at hf
    injection hf with h2
    exact h2.symm

theorem rsiVal_bounds (g l : ℚ) (hg : 0 ≤ g) (hl : 0 ≤ l) :
    0 ≤ rsiVal g l ∧ rsiVal g l ≤ 100 := by
  unfold rsiVal
  split_ifs with h1 h2
  · norm_num
  · norm_num
  · have hl2 : 0 < l := lt_of_le_of_ne hl (Ne.symm h2)
    have hr : 0 ≤ g / l := div_nonneg hg (le_of_lt hl2)
    have h3 : (1:ℚ) ≤ 1 + g / l := by linarith
    have h4 : 0 < 100 / (1 + g / l) := by positivity
    have h5 : 100 / (1 + g / l) ≤ 100 := div_le_self (by norm_num) h3
    constructor <;> linarith

/-- C1: every RSI value present past the warm-up window lies in [0, 100];
when the rolling average loss is exactly zero and the average gain is
positive, RSI is exactly 100; when both rolling averages are zero (flat
window), RSI is exactly 50. -/
theorem C1_rsi_bounds_and_edges :
    ∀ (closes : List ℚ) (period i : Nat) (v : ℚ),
      1 ≤ period → period + 1 ≤ closes.length →
      (rsi closes period).get? i = some (some v) →
      ((0 ≤ v ∧ v ≤ 100) ∧
        ∀ g l : ℚ,
          (rollMean (gainsOf closes) period).get? i = some (some g) →
          (rollMean (lossesOf closes) period).get? i = some (some l) →
          ((l = 0 → 0 < g → v = 100) ∧ (g = 0 → l = 0 → v = 50))) := by
  intro closes period i v hp _ h
  obtain ⟨g, l, hg, hl, hv⟩ := rsi_get?_eq closes period i v h
  have hgnn : 0 ≤ g := rollMean_nonneg _ period i g hp (gainsOf_nonneg closes) hg
  have hlnn : 0 ≤ l := rollMean_nonneg _ period i l hp (lossesOf_nonneg closes) hl
  constructor
  · rw [hv]
    exact rsiVal_bounds g l hgnn hlnn
  · intro g2 l2 hg2 hl2
    have hgeq : g2 = g := by
      rw [hg] at hg2
      exact (Option.some.inj (Option.some.inj hg2)).symm
    have hleq : l2 = l := by
      rw [hl] at hl2
      exact (Option.some.inj (Option.some.inj hl2)).symm
    subst hgeq hleq hv
    constructor
    · intro hl0 hgpos
      unfold rsiVal
      rw [if_neg (by rintro ⟨h1, _⟩; exact absurd h1 (ne_of_gt hgpos)), if_pos hl0]
    · intro hg0 hl0
      unfold rsiVal
      rw [if_pos ⟨hg0, hl0⟩]

/-- A flat series of fifteen closes at 10. -/
def closes15 : List ℚ := [10, 10, 10, 10, 10, 10, 10, 10, 10, 10, 10, 10, 10, 10, 10]

/-- Witness for C1: a flat 15-close series at period 14 has RSI 50 at the
first post-warm-up position, inside [0, 100]. -/
theorem C1_witness :
    (rsi closes15 14).get? 13 = some (some 50) ∧
    ((0:ℚ) ≤ 50 ∧ (50:ℚ) ≤ 100) := by
  have h : (rsi closes15 14).get? 13 = some (some 50) := by
    norm_num [rsi, gainsOf, lossesOf, diffList, rollMean, rollMeanGo, rsiVal,
      closes15, List.get?]
  have h2 := C1_rsi_bounds_and_edges closes15 14 13 50 (by decide) (by decide) h
  exact ⟨h, h2.1⟩

/-! ### C8: 52-week high/low signals -/

/-- C8: with a positive supplied 52-week high and low, new-high fires
exactly when price ≥ high, near-high exactly when the price is within
`threshold` percent below the high and new-high did not fire; new-low /
near-low are the symmetric mirror, the two sides independent; and the
three concrete examples from the spec. -/
theorem C8_52w_signals :
    (∀ (p h l t : ℚ), 0 < h → 0 < l →
      ((SignalType.new_52w_high ∈ detect_52w_signals p (some h) (some l) t ↔ h ≤ p) ∧
       (SignalType.near_52w_high ∈ detect_52w_signals p (some h) (some l) t ↔
         (p < h ∧ (h - p) / h * 100 ≤ t)) ∧
       (SignalType.new_52w_low ∈ detect_52w_signals p (some h) (some l) t ↔ p ≤ l) ∧
       (SignalType.near_52w_low ∈ detect_52w_signals p (some h) (some l) t ↔
         (l < p ∧ (p - l) / l * 100 ≤ t))))
    ∧ detect_52w_signals 110 (some 100) (some 80) 5 = [SignalType.new_52w_high]
    ∧ detect_52w_signals 97 (some 100) (some 80) 5 = [SignalType.near_52w_high]
    ∧ detect_52w_signals 90 (some 100) (some 80) 5 = [] := by
  refine ⟨?_, ?_, ?_, ?_⟩
  · intro p h l t hh hl
    have hh0 : ¬ (h = 0) := ne_of_gt hh
    have hl0 : ¬ (l = 0) := ne_of_gt hl
    simp only [detect_52w_signals, hh0, hl0, if_false, List.mem_append]
    refine ⟨?_, ?_, ?_, ?_⟩ <;>
      · split_ifs <;> simp_all [not_le, not_lt]
  · norm_num [detect_52w_signals]
  · norm_num [detect_52w_signals]
  · norm_num [detect_52w_signals]

/-- Witness for C8 at price 110, high 100, low 80, threshold 5. -/
theorem C8_witness :
    SignalType.new_52w_high ∈ detect_52w_signals 110 (some 100) (some 80) 5 ↔
      (100:ℚ) ≤ 110 :=
  (C8_52w_signals.1 110 100 80 5 (by norm_num) (by norm_num)).1

/-! ### C10: empty batch on empty input or zero last close -/

/-- C10: `detect_all_signals` returns the empty emission batch whenever
the bar list is empty or its last close is exactly zero, regardless of
the supplied 52-week levels. -/
theorem C10_detect_all_empty :
    ∀ (symbol : String) (bars : List OHLCV) (high_52w low_52w : Option ℚ),
      (bars = [] ∨ ∃ b, bars.getLast? = some b ∧ b.close = 0) →
      detect_all_signals symbol bars high_52w low_52w = [] := by
  intro symbol bars hi lo h
  rcases h with h | ⟨b, hb, hc⟩
  · subst h; rfl
  · unfold detect_all_signals
    rw [hb]
    simp [hc]

/-- A single bar whose close is exactly zero. -/
def zeroCloseBar : OHLCV := ⟨⟨2024, 1, 1⟩, 1, 1, 0, 0, 5⟩

/-- Witness for C10: one bar closing at 0 with 52-week levels that would
otherwise fire yields no signals. -/
theorem C10_witness :
    detect_all_signals "X" [zeroCloseBar] (some 100) (some 1) = [] :=
  C10_detect_all_empty "X" [zeroCloseBar] (some 100) (some 1)
    (Or.inr ⟨zeroCloseBar, rfl, rfl⟩)

/-! ### C7: signal acceptance and deduplication -/

/-- C7: `save_signal` discards the emission and leaves the store
unchanged exactly when a record of the same (symbol, type) lies inside
the trailing dedupe window, and otherwise persists and returns the
accepted event; hence two identical emissions within the window accept
only the first, and the same pair strictly after the window accepts
again. -/
theorem C7_save_signal_dedupe :
    (∀ (store : List SignalRecord) (signal : SignalCreate) (now : Int)
        (new_id : String) (dedupe_hours : Int),
      (∃ r ∈ store, r.symbol = signal.symbol ∧
          r.signal_type = signal.signal_type ∧
          now - dedupe_hours * 3600 ≤ r.timestamp) →
      save_signal store signal now new_id dedupe_hours = (none, store)) ∧
    (∀ (store : List SignalRecord) (signal : SignalCreate) (now : Int)
        (new_id : String) (dedupe_hours : Int),
      (¬ ∃ r ∈ store, r.symbol = signal.symbol ∧
          r.signal_type = signal.signal_type ∧
          now - dedupe_hours * 3600 ≤ r.timestamp) →
      save_signal store signal now new_id dedupe_hours
        = (some ⟨new_id, signal.symbol, signal.signal_type, now, signal.price,
              signal.details, now⟩,
            store ++ [⟨new_id, signal.symbol, signal.signal_type, now,
              signal.price, signal.details⟩])) ∧
    (∀ (store : List SignalRecord) (signal : SignalCreate) (t1 t2 : Int)
        (id1 id2 : String),
      (¬ ∃ r ∈ store, r.symbol = signal.symbol ∧
          r.signal_type = signal.signal_type ∧ t1 - 24 * 3600 ≤ r.timestamp) →
      t2 - 24 * 3600 ≤ t1 →
      ((save_signal store signal t1 id1 24).1 ≠ none ∧
        save_signal (save_signal store signal t1 id1 24).2 signal t2 id2 24
          = (none, (save_signal store signal t1 id1 24).2))) ∧
    (∀ (store : List SignalRecord) (signal : SignalCreate) (t1 t2 : Int)
        (id1 id2 : String),
      (¬ ∃ r ∈ store, r.symbol = signal.symbol ∧
          r.signal_type = signal.signal_type ∧ t2 - 24 * 3600 ≤ r.timestamp) →
      t1 < t2 - 24 * 3600 →
      (save_signal
          (store ++ [⟨id1, signal.symbol, signal.signal_type, t1,
            signal.price, signal.details⟩]) signal t2 id2 24).1 ≠ none) := by
  have hFound : ∀ (store : List SignalRecord) (signal : SignalCreate)
      (now : Int) (new_id : String) (dh : Int),
      (∃ r ∈ store, r.symbol = signal.symbol ∧
          r.signal_type = signal.signal_type ∧
          now - dh * 3600 ≤ r.timestamp) →
      save_signal store signal now new_id dh = (none, store) := by
    intro store signal now new_id dh h
    obtain ⟨r, hmem, hprop⟩ := h
    unfold save_signal
    have hs : (store.find? (fun r => decide (r.symbol = signal.symbol ∧
        r.signal_type = signal.signal_type ∧
        now - dh * 3600 ≤ r.timestamp))).isSome :=
      List.find?_isSome.mpr ⟨r, hmem, by simpa using hprop⟩
    cases hf : store.find? (fun r => decide (r.symbol = signal.symbol ∧
        r.signal_type = signal.signal_type ∧
        now - dh * 3600 ≤ r.timestamp)) with
    | none => rw [hf] at hs; simp at hs
    | some r2 => simp only [hf]
  have hNotFound : ∀ (store : List SignalRecord) (signal : SignalCreate)
      (now : Int) (new_id : String) (dh : Int),
      (¬ ∃ r ∈ store, r.symbol = signal.symbol ∧
          r.signal_type = signal.signal_type ∧
          now - dh * 3600 ≤ r.timestamp) →
      save_signal store signal now new_id dh
        = (some ⟨new_id, signal.symbol, signal.signal_type, now, signal.price,
              signal.details, now⟩,
            store ++ [⟨new_id, signal.symbol, signal.signal_type, now,
              signal.price, signal.details⟩]) := by
    intro store signal now new_id dh h
    unfold save_signal
    have hf : store.find? (fun r => decide (r.symbol = signal.symbol ∧
        r.signal_type = signal.signal_type ∧
        now - dh * 3600 ≤ r.timestamp)) = none := by
      rw [List.find?_eq_none]
      intro x hx hpx
      exact h ⟨x, hx, by simpa using hpx⟩
    simp only [hf]
  refine ⟨hFound, hNotFound, ?_, ?_⟩
  · intro store signal t1 t2 id1 id2 hnone hwin
    have h1 := hNotFound store signal t1 id1 24 hnone
    rw [h1]
    refine ⟨by simp, ?_⟩
    apply hFound
    refine ⟨⟨id1, signal.symbol, signal.signal_type, t1, signal.price,
      signal.details⟩, ?_, rfl, rfl, by simpa using hwin⟩
    simp
  · intro store signal t1 t2 id1 id2 hnone hafter
    have h2 := hNotFound
      (store ++ [⟨id1, signal.symbol, signal.signal_type, t1, signal.price,
        signal.details⟩]) signal t2 id2 24 ?_
    · rw [h2]; simp
    · rintro ⟨r, hmem, hsym, htyp, hts⟩
      rcases List.mem_append.mp hmem with hin | hin
      · exact hnone ⟨r, hin, hsym, htyp, hts⟩
      · have : r = ⟨id1, signal.symbol, signal.signal_type, t1, signal.price,
            signal.details⟩ := by simpa using hin
        rw [this] at hts
        simp only [] at hts
        omega

/-- Witness for C7: on an empty store, a first emission at t=0 is
accepted and an identical one at t=1000 (inside the 24h window) is
rejected. -/
theorem C7_witness :
    ((save_signal [] ⟨"AAPL", SignalType.ma_crossover_bullish, 100,
        Details.maInfo MAPeriod.w20⟩ 0 "id1" 24).1 ≠ none ∧
      save_signal (save_signal [] ⟨"AAPL", SignalType.ma_crossover_bullish, 100,
          Details.maInfo MAPeriod.w20⟩ 0 "id1" 24).2
        ⟨"AAPL", SignalType.ma_crossover_bullish, 100,
          Details.maInfo MAPeriod.w20⟩ 1000 "id2" 24
        = (none, (save_signal [] ⟨"AAPL", SignalType.ma_crossover_bullish, 100,
            Details.maInfo MAPeriod.w20⟩ 0 "id1" 24).2)) :=
  (C7_save_signal_dedupe.2.2.1 [] ⟨"AAPL", SignalType.ma_crossover_bullish, 100,
      Details.maInfo MAPeriod.w20⟩ 0 1000 "id1" "id2"
    (by simp) (by omega))

/-! ### C9: MACD histogram identity -/

theorem ewmFrom_length (alpha e : ℚ) (xs : List ℚ) :
    (ewmFrom alpha e xs).length = xs.length := by
  induction xs generalizing e with
  | nil => rfl
  | cons p ps ih => simp [ewmFrom, ih]

theorem ewmMean_length (xs : List ℚ) (span : Nat) :
    (ewmMean xs span).length = xs.length := by
  cases xs with
  | nil => rfl
  | cons p ps => simp [ewmMean, ewmFrom_length]

/-- C9: wherever both the MACD line and the signal line carry a value in
the boundary result, the histogram carries a value within 3/20000 (three
half-ulps of the 4-decimal rounding) of their difference; the underlying
unrounded histogram is exactly MACD line minus signal line. -/
theorem C9_macd_histogram :
    ∀ (bars : List OHLCV) (fp sp sgp i : Nat) (d1 d2 : Date) (m s : ℚ),
      (calculate_macd_result bars fp sp sgp).macd_line.get? i = some (d1, some m) →
      (calculate_macd_result bars fp sp sgp).signal_line.get? i = some (d2, some s) →
      ∃ d3 hv,
        (calculate_macd_result bars fp sp sgp).histogram.get? i = some (d3, some hv) ∧
        |hv - (m - s)| ≤ 3 / 20000 := by
  intro bars fp sp sgp i d1 d2 m s hm hs
  unfold calculate_macd_result at *
  by_cases hguard : bars.isEmpty ∨ bars.length < sp + sgp
  · rw [if_pos hguard] at hm
    simp at hm
  · rw [if_neg hguard] at hm hs ⊢
    simp only [macd] at hm hs ⊢
    set closes := bars.map (·.close) with hcloses
    set ml := (ewmMean closes fp).zipWith (· - ·) (ewmMean closes sp) with hml
    set sl := ewmMean ml sgp with hsl
    rw [List.get?_zip_eq_some] at hm hs
    obtain ⟨hts1, hmv⟩ := hm
    obtain ⟨hts2, hsv⟩ := hs
    rw [List.get?_map] at hmv hsv
    cases hm0 : ml.get? i with
    | none => rw [hm0] at hmv; simp at hmv
    | some m0 =>
      cases hs0 : sl.get? i with
      | none => rw [hs0] at hsv; simp at hsv
      | some s0 =>
        rw [hm0] at hmv
        rw [hs0] at hsv
        simp only [Option.map_some] at hmv hsv
        have hmr : m = round4 m0 := by
          have := Option.some.inj hmv
          exact (Option.some.inj this).symm
        have hsr : s = round4 s0 := by
          have := Option.some.inj hsv
          exact (Option.some.inj this).symm
        have hh0 : (ml.zipWith (· - ·) sl).get? i = some (m0 - s0) := by
          rw [List.get?_zipWith_eq_some]
          exact ⟨m0, s0, hm0, hs0, rfl⟩
        refine ⟨d1, round4 (m0 - s0), ?_, ?_⟩
        · rw [List.get?_zip_eq_some]
          refine ⟨hts1, ?_⟩
          rw [List.get?_map, hh0]
          rfl
        · have t1 := abs_round4_sub_le (m0 - s0)
          have t2 := abs_round4_sub_le m0
          have t3 := abs_round4_sub_le s0
          rw [abs_le] at t1 t2 t3 ⊢
          rw [hmr, hsr]
          constructor <;> linarith [t1.1, t1.2, t2.1, t2.2, t3.1, t3.2]

/-- Thirty-five identical bars closing at 10. -/
def bars35 : List OHLCV :=
  List.replicate 35 ⟨⟨2024, 1, 1⟩, 10, 10, 10, 10, 1⟩

/-- Witness for C9 on 35 flat bars: MACD line, signal line and histogram
are all 0 at position 0, and the histogram obeys the bound. -/
theorem C9_witness :
    (calculate_macd_result bars35 12 26 9).macd_line.get? 0
        = some (⟨2024, 1, 1⟩, some 0) ∧
    ∃ d3 hv,
      (calculate_macd_result bars35 12 26 9).histogram.get? 0
          = some (d3, some hv) ∧
      |hv - ((0:ℚ) - 0)| ≤ 3 / 20000 := by
  have h1 : (calculate_macd_result bars35 12 26 9).macd_line.get? 0
      = some (⟨2024, 1, 1⟩, some 0) := by
    norm_num [calculate_macd_result, macd, ewmMean, ewmFrom, bars35,
      List.replicate, List.zip, round4, rhe, List.get?]
  have h2 : (calculate_macd_result bars35 12 26 9).signal_line.get? 0
      = some (⟨2024, 1, 1⟩, some 0) := by
    norm_num [calculate_macd_result, macd, ewmMean, ewmFrom, bars35,
      List.replicate, List.zip, round4, rhe, List.get?]
  exact ⟨h1, C9_macd_histogram bars35 12 26 9 0 ⟨2024, 1, 1⟩ ⟨2024, 1, 1⟩ 0 0 h1 h2⟩

/-! ### C6: screener classification, filtering, and the below-exclusion
round trip -/

/-- C6: position classification ("at" iff |d| < 0.5, "above" iff d > 0
otherwise, else "below"); a row passes the filter exactly when
|distance%| ≤ the requested max distance and its position satisfies the
include flags; and with `include_below = false` no row of the returned
page has position "below". -/
theorem C6_screener_filter :
    (∀ d : ℚ,
      (classify_position d = Position.at_ ↔ |d| < 1/2) ∧
      (classify_position d = Position.above ↔ (¬ |d| < 1/2 ∧ 0 < d)) ∧
      (classify_position d = Position.below ↔ (¬ |d| < 1/2 ∧ ¬ 0 < d))) ∧
    (∀ (rows : List ScreenerResult) (request : ScreenerRequest)
        (r : ScreenerResult),
      r ∈ screen_filter rows request ↔
        (r ∈ rows ∧ |r.distance_percent| ≤ request.distance_pct ∧
          (r.position = Position.below → request.include_below = true) ∧
          ((r.position = Position.above ∨ r.position = Position.at_) →
            request.include_above = true))) ∧
    (∀ (rows : List ScreenerResult) (request : ScreenerRequest),
      request.include_below = false →
      ∀ r ∈ (screen_page rows request).1, r.position ≠ Position.below) := by
  have hfilter : ∀ (rows : List ScreenerResult) (request : ScreenerRequest)
      (r : ScreenerResult),
      r ∈ screen_filter rows request ↔
        (r ∈ rows ∧ |r.distance_percent| ≤ request.distance_pct ∧
          (r.position = Position.below → request.include_below = true) ∧
          ((r.position = Position.above ∨ r.position = Position.at_) →
            request.include_above = true)) := by
    intro rows request r
    unfold screen_filter
    rw [List.mem_filter, decide_eq_true_iff]
    cases hib : request.include_below <;> cases hia : request.include_above <;>
      simp only [hib, hia, not_lt] <;>
      constructor <;>
      · rintro ⟨hmem, h1, h2, h3⟩
        refine ⟨hmem, ?_, ?_, ?_⟩ <;> simp_all
  refine ⟨?_, hfilter, ?_⟩
  · intro d
    unfold classify_position
    refine ⟨?_, ?_, ?_⟩ <;> split_ifs with h1 h2 <;> simp_all
  · intro rows request hib r hr hpos
    unfold screen_page at hr
    have h1 : r ∈ (screen_filter rows request).insertionSort
        (row_le request.sort_by request.sort_order) :=
      List.mem_of_mem_drop (List.mem_of_mem_take hr)
    have h2 : r ∈ screen_filter rows request :=
      (List.mem_insertionSort _).mp h1
    have h3 := ((hfilter rows request r).mp h2).2.2.1 hpos
    rw [hib] at h3
    exact Bool.false_ne_true h3

/-- A screener row sitting 10 percent below its moving average. -/
def rowBelow : ScreenerResult :=
  ⟨"TST", "Test Corp", none, 9, 0, 0, none, 10, MAPeriod.w20, -1, -10,
    Position.below⟩

/-- A screener request excluding rows below the moving average. -/
def reqNoBelow : ScreenerRequest :=
  ⟨MAPeriod.w20, 50, false, true, SortField.distance, SortOrder.asc, 100, 0⟩

/-- Witness for C6: with `include_below = false` the returned page holds
no "below" row (here the page is actually empty). -/
theorem C6_witness :
    (screen_page [rowBelow] reqNoBelow).1 = [] ∧
    ∀ r ∈ (screen_page [rowBelow] reqNoBelow).1, r.position ≠ Position.below := by
  constructor
  · norm_num [screen_page, screen_filter, rowBelow, reqNoBelow,
      List.insertionSort, List.filter]
  · exact C6_screener_filter.2.2 [rowBelow] reqNoBelow rfl

/-! ### C5: weekly indicator series alignment -/

theorem getLast?_cons_eq (a : α) (l : List α) :
    (a :: l).getLast? = match l.getLast? with
      | some x => some x
      | none => some a := by
  induction l generalizing a with
  | nil => rfl
  | cons b l2 ih =>
    rw [List.getLast?_cons_cons, ih b]
    cases h : l2.getLast? <;> rfl

theorem lookupG_upsertSeries (m : List ((Int × Int) × (Date × Option ℚ)))
    (k k2 : Int × Int) (v : Date × Option ℚ) :
    lookupG k (upsertSeries m k2 v)
      = if k2 = k then some v else lookupG k m := by
  induction m with
  | nil =>
    by_cases h : k2 = k
    · unfold upsertSeries lookupG
      rw [List.find?_cons_of_pos _ (by simpa using h), if_pos h]
      rfl
    · unfold upsertSeries lookupG
      rw [List.find?_cons_of_neg _ (by simpa using h), if_neg h]
  | cons kv rest ih =>
    unfold upsertSeries
    by_cases h1 : kv.1 = k2
    · rw [if_pos h1]
      by_cases h2 : k2 = k
      · unfold lookupG
        rw [List.find?_cons_of_pos _ (by simpa using h2), if_pos h2]
        rfl
      · unfold lookupG
        rw [List.find?_cons_of_neg _ (by simpa using h2),
          List.find?_cons_of_neg _ (by simp [h1, h2]), if_neg h2]
    · rw [if_neg h1]
      unfold lookupG at ih ⊢
      by_cases h3 : kv.1 = k
      · have h4 : ¬ (k2 = k) := by
          intro h5
          exact h1 (by rw [h3, h5])
        rw [List.find?_cons_of_pos _ (by simpa using h3),
          List.find?_cons_of_pos _ (by simpa using h3), if_neg h4]
      · rw [List.find?_cons_of_neg _ (by simpa using h3),
          List.find?_cons_of_neg _ (by simpa using h3)]
        exact ih

theorem lookupG_groupSeries_aux (series : List (Date × Option ℚ))
    (k : Int × Int) :
    ∀ m : List ((Int × Int) × (Date × Option ℚ)),
      lookupG k (series.foldl (fun m2 e => upsertSeries m2 (isoKey e.1) e) m)
        = match (series.filter (fun e => isoKey e.1 = k)).getLast? with
          | some e => some e
          | none => lookupG k m := by
  induction series with
  | nil => intro m; rfl
  | cons e rest ih =>
    intro m
    rw [List.foldl_cons, List.filter_cons]
    by_cases h : isoKey e.1 = k
    · rw [if_pos (by simpa using h)]
      rw [ih]
      rw [getLast?_cons_eq]
      cases hr : (rest.filter (fun e2 => isoKey e2.1 = k)).getLast? with
      | none => simp [lookupG_upsertSeries, h]
      | some x => rfl
    · rw [if_neg (by simpa using h)]
      rw [ih]
      cases hr : (rest.filter (fun e2 => isoKey e2.1 = k)).getLast? with
      | none => simp [lookupG_upsertSeries, h]
      | some x => rfl

/-- C5: the aligned weekly indicator series has exactly one entry per
weekly bar, positionally matched: the entry carries the bar's (week-end)
timestamp and the value of the most recent source entry whose
(ISO year, ISO week) equals the bar's, or an explicit `none` when no
source entry matches that week. -/
theorem C5_weekly_alignment :
    ∀ (series : List (Date × Option ℚ)) (weekly : List OHLCV),
      (alignSeriesToWeekly series weekly).length = weekly.length ∧
      ∀ (i : Nat) (bar : OHLCV), weekly.get? i = some bar →
        (alignSeriesToWeekly series weekly).get? i
          = some (bar.timestamp,
              ((series.filter
                  (fun e => isoKey e.1 = isoKey bar.timestamp)).getLast?).bind
                (·.2)) := by
  intro series weekly
  constructor
  · unfold alignSeriesToWeekly resample_series_to_week
    simp only [List.length_map, List.length_zip]
    simp only [min_self]
  · intro i bar hbar
    unfold alignSeriesToWeekly resample_series_to_week
    rw [List.get?_map]
    have hk : (weekly.map (fun b => isoKey b.timestamp)).get? i
        = some (isoKey bar.timestamp) := by
      rw [List.get?_map, hbar]
      rfl
    have hd : (weekly.map (·.timestamp)).get? i = some bar.timestamp := by
      rw [List.get?_map, hbar]
      rfl
    have hz : ((weekly.map (fun b => isoKey b.timestamp)).zip
        (weekly.map (·.timestamp))).get? i
        = some (isoKey bar.timestamp, bar.timestamp) := by
      rw [List.get?_zip_eq_some]
      exact ⟨hk, hd⟩
    rw [hz]
    simp only [Option.map_some']
    have hl := lookupG_groupSeries_aux series (isoKey bar.timestamp) []
    unfold groupSeries
    cases hr : (series.filter
        (fun e => isoKey e.1 = isoKey bar.timestamp)).getLast? with
    | none =>
      rw [hr] at hl
      simp only [] at hl
      rw [hl]
      rfl
    | some x =>
      rw [hr] at hl
      simp only [] at hl
      rw [hl]
      rfl

/-- Two source entries in ISO week (2024, 1). -/
def seriesEx : List (Date × Option ℚ) :=
  [(⟨2024, 1, 2⟩, some 5), (⟨2024, 1, 3⟩, some 7)]

/-- One weekly bar whose timestamp (2024-01-07) lies in ISO week
(2024, 1). -/
def weeklyEx : List OHLCV := [⟨⟨2024, 1, 7⟩, 1, 1, 1, 1, 1⟩]

/-- Witness for C5: the single aligned entry carries the weekly bar's
timestamp and the value of the latest matching source entry. -/
theorem C5_witness :
    (alignSeriesToWeekly seriesEx weeklyEx).get? 0
      = some (⟨2024, 1, 7⟩, some 7) := by
  have h := (C5_weekly_alignment seriesEx weeklyEx).2 0 ⟨⟨2024, 1, 7⟩, 1, 1, 1, 1, 1⟩ rfl
  rw [h]
  decide

/-! ### C2: MA crossover detection -/

theorem findSome?_congr {α β : Type} (l : List α) (f g : α → Option β)
    (h : ∀ x ∈ l, f x = g x) : l.findSome? f = l.findSome? g := by
  induction l with
  | nil => rfl
  | cons a l2 ih =>
    rw [List.findSome?_cons, List.findSome?_cons, h a (by simp)]
    cases g a with
    | none => exact ih (fun x hx => h x (by simp [hx]))
    | some b => rfl

theorem findSome?_eq_range_findSome? {α β : Type} (l : List α)
    (f : α → Option β) :
    l.findSome? f
      = (List.range l.length).findSome? (fun k => (l.get? k).bind f) := by
  induction l with
  | nil => rfl
  | cons a l2 ih =>
    rw [List.length_cons, List.range_succ_eq_map, List.findSome?_cons,
      List.findSome?_cons]
    have htail : (List.range l2.length).findSome?
          ((fun k => ((a :: l2).get? k).bind f) ∘ Nat.succ)
        = (List.range l2.length).findSome? (fun k => (l2.get? k).bind f) :=
      findSome?_congr _ _ _ (fun x _ => rfl)
    rw [List.findSome?_map, htail, ← ih]
    rfl

/-- Stated from the spec, as amended: scan the trailing `lookback`
adjacent (close, MA) pairs, oldest first; a bullish signal is the first
pair whose close is strictly below the MA and then strictly above it,
bearish the mirror; no signal without `period + lookback` bars of
history or when either of the last two MA values is absent. -/
def crossoverOfPair (pp : (ℚ × Option ℚ) × (ℚ × Option ℚ)) :
    Option SignalType :=
  match pp.1.2, pp.2.2 with
  | some prev_ma, some curr_ma =>
    if pp.1.1 < prev_ma ∧ curr_ma < pp.2.1 then some .ma_crossover_bullish
    else if prev_ma < pp.1.1 ∧ pp.2.1 < curr_ma then some .ma_crossover_bearish
    else none
  | _, _ => none

/-- The spec-side description of `detect_ma_crossover` (see
`crossoverOfPair`). -/
def specMaCrossover (ohlcv_list : List OHLCV) (ma_period : MAPeriod)
    (lookback : Nat) : Option SignalType :=
  let closes := ohlcv_list.map (·.close)
  let ma := moving_average closes ma_period.days MAType.sma
  if ohlcv_list.length < ma_period.days + lookback then none
  else if ((ma.getLast?).bind id).isNone ∨ ((ma.dropLast.getLast?).bind id).isNone
  then none
  else
    let paired := closes.zip ma
    let adjacent := paired.zip paired.tail
    (adjacent.drop (adjacent.length - lookback)).findSome? crossoverOfPair

theorem ma_days_pos (mp : MAPeriod) : 100 ≤ mp.days := by
  cases mp <;> simp [MAPeriod.days]

/-- C2 (amended): `detect_ma_crossover` agrees everywhere with the
spec-side first-crossing scan `specMaCrossover`, whose bullish condition
requires the close strictly below the MA on the earlier bar of the pair
(a close exactly on the MA does not qualify) and strictly above it on the
later bar, with the bearish mirror; only the first qualifying pair inside
the lookback window is reported, and short history or absent MA values
yield no signal. -/
theorem C2_ma_crossover_refines_spec :
    ∀ (ohlcv_list : List OHLCV) (ma_period : MAPeriod) (lookback : Nat),
      detect_ma_crossover ohlcv_list ma_period lookback
        = specMaCrossover ohlcv_list ma_period lookback := by
  intro l mp lb
  have hper : 100 ≤ mp.days := ma_days_pos mp
  unfold detect_ma_crossover specMaCrossover
  by_cases hlen : l.length < mp.days + lb
  · rw [if_pos hlen, if_pos hlen]
  · rw [if_neg hlen, if_neg hlen]
    have hn : mp.days + lb ≤ l.length := not_lt.mp hlen
    have hclen : (l.map (·.close)).length = l.length := List.length_map _ _
    have hmalen : (moving_average (l.map (·.close)) mp.days MAType.sma).length
        = l.length := by
      unfold moving_average
      rw [rollMean_length, hclen]
    set closes := l.map (·.close) with hcdef
    set ma := moving_average closes mp.days MAType.sma with hmadef
    have hL2 : 2 ≤ l.length := by omega
    obtain ⟨a, hA⟩ : ∃ a, ma.get? (l.length - 1) = some a := by
      have h1 : l.length - 1 < ma.length := by omega
      exact ⟨_, List.get?_eq_some.mpr ⟨h1, rfl⟩⟩
    obtain ⟨b, hB⟩ : ∃ b, ma.get? (l.length - 2) = some b := by
      have h1 : l.length - 2 < ma.length := by omega
      exact ⟨_, List.get?_eq_some.mpr ⟨h1, rfl⟩⟩
    have hlast : ma.getLast? = some a := by
      rw [List.getLast?_eq_get?, hmalen]
      exact hA
    have hdla : ma.dropLast.getLast? = some b := by
      rw [List.getLast?_eq_get?, List.length_dropLast, hmalen,
        List.get?_eq_getElem?, List.getElem?_dropLast,
        if_pos (show l.length - 1 - 1 < ma.length - 1 by omega),
        ← List.get?_eq_getElem?,
        (show l.length - 1 - 1 = l.length - 2 by omega)]
      exact hB
    -- replace the n binder with l.length
    dsimp only
    rw [hclen, hlast, hdla, hA, hB]
    cases a with
    | none => rfl
    | some av =>
      cases b with
      | none => rfl
      | some bv =>
        dsimp only
        rw [if_neg (by simp)]
        have hPlen : (closes.zip ma).length = l.length := by
          rw [List.length_zip, hclen, hmalen, min_self]
        have hAdjLen : ((closes.zip ma).zip (closes.zip ma).tail).length
            = l.length - 1 := by
          rw [List.length_zip, List.length_tail, hPlen]
          omega
        conv_rhs => rw [findSome?_eq_range_findSome?]
        have hDropLen : ((List.drop (((closes.zip ma).zip (closes.zip ma).tail).length - lb)
            ((closes.zip ma).zip (closes.zip ma).tail))).length = lb := by
          rw [List.length_drop, hAdjLen]
          omega
        rw [hDropLen]
        apply findSome?_congr
        intro k hk
        rw [List.mem_range] at hk
        rw [List.get?_drop, hAdjLen]
        have hj1 : l.length - 1 - lb + k < l.length - 1 := by omega
        have hj2 : l.length - 1 - lb + k < l.length := by omega
        have hj3 : l.length - 1 - lb + k + 1 < l.length := by omega
        obtain ⟨c1, hc1⟩ : ∃ x, closes.get? (l.length - 1 - lb + k) = some x :=
          ⟨_, List.get?_eq_some.mpr ⟨by omega, rfl⟩⟩
        obtain ⟨m1, hm1⟩ : ∃ x, ma.get? (l.length - 1 - lb + k) = some x :=
          ⟨_, List.get?_eq_some.mpr ⟨by omega, rfl⟩⟩
        obtain ⟨c2, hc2⟩ : ∃ x, closes.get? (l.length - 1 - lb + k + 1) = some x :=
          ⟨_, List.get?_eq_some.mpr ⟨by omega, rfl⟩⟩
        obtain ⟨m2, hm2⟩ : ∃ x, ma.get? (l.length - 1 - lb + k + 1) = some x :=
          ⟨_, List.get?_eq_some.mpr ⟨by omega, rfl⟩⟩
        have hP1 : (closes.zip ma).get? (l.length - 1 - lb + k) = some (c1, m1) :=
          (List.get?_zip_eq_some _ _ _ _).mpr ⟨hc1, hm1⟩
        have hP2 : (closes.zip ma).get? (l.length - 1 - lb + k + 1) = some (c2, m2) :=
          (List.get?_zip_eq_some _ _ _ _).mpr ⟨hc2, hm2⟩
        have hPt : (closes.zip ma).tail.get? (l.length - 1 - lb + k) = some (c2, m2) := by
          rw [← List.drop_one, List.get?_drop]
          rw [show 1 + (l.length - 1 - lb + k) = l.length - 1 - lb + k + 1 by omega]
          exact hP2
        have hAdj : ((closes.zip ma).zip (closes.zip ma).tail).get?
            (l.length - 1 - lb + k) = some ((c1, m1), (c2, m2)) :=
          (List.get?_zip_eq_some _ _ _ _).mpr ⟨hP1, hPt⟩
        rw [hAdj]
        unfold crossAt
        rw [show l.length - lb + k - 1 = l.length - 1 - lb + k by omega,
          show l.length - lb + k = l.length - 1 - lb + k + 1 by omega,
          hc1, hc2, hm1, hm2]
        cases m1 <;> cases m2 <;> rfl

def cxBars : List OHLCV :=
  List.replicate 101 ⟨⟨2024, 1, 1⟩, 10, 10, 10, 10, 1⟩
    ++ [⟨⟨2024, 1, 2⟩, 20, 20, 20, 20, 1⟩]

def cxCloses : List ℚ := List.replicate 101 10 ++ [20]

theorem cx_closes_eq : cxBars.map (·.close) = cxCloses := by
  simp [cxBars, cxCloses]

theorem cx_closes_len : cxCloses.length = 102 := by
  simp [cxCloses]

theorem cx_take100 : cxCloses.take 100 = List.replicate 100 (10:ℚ) := by
  unfold cxCloses
  rw [List.take_append_of_le_length (by simp), List.take_replicate]
  norm_num

theorem cx_take101 : cxCloses.take 101 = List.replicate 101 (10:ℚ) := by
  unfold cxCloses
  rw [List.take_append_of_le_length (by simp), List.take_replicate]
  norm_num

theorem cx_sum_repl : ∀ n : Nat, (List.replicate n (10:ℚ)).sum = n * 10 := by
  intro n
  rw [List.sum_replicate, nsmul_eq_mul]

theorem cx_ma99 :
    (moving_average cxCloses 100 MAType.sma).get? 99 = some (some 10) := by
  show (rollMean cxCloses 100).get? 99 = some (some 10)
  rw [rollMean_get? _ _ _ (by norm_num) (by rw [cx_closes_len]; norm_num)]
  unfold meanOfLastWindow
  rw [if_pos (by norm_num)]
  rw [show (99:Nat) + 1 = 100 from rfl, cx_take100]
  rw [show (100:Nat) - 100 = 0 from rfl, List.drop_zero, cx_sum_repl]
  norm_num

theorem cx_ma100 :
    (moving_average cxCloses 100 MAType.sma).get? 100 = some (some 10) := by
  show (rollMean cxCloses 100).get? 100 = some (some 10)
  rw [rollMean_get? _ _ _ (by norm_num) (by rw [cx_closes_len]; norm_num)]
  unfold meanOfLastWindow
  rw [if_pos (by norm_num)]
  rw [show (100:Nat) + 1 = 101 from rfl, cx_take101]
  rw [show (101:Nat) - 100 = 1 from rfl, List.drop_replicate, cx_sum_repl]
  norm_num

theorem cx_ma101 :
    (moving_average cxCloses 100 MAType.sma).get? 101 = some (some (101/10)) := by
  show (rollMean cxCloses 100).get? 101 = some (some (101/10))
  rw [rollMean_get? _ _ _ (by norm_num) (by rw [cx_closes_len]; norm_num)]
  unfold meanOfLastWindow
  rw [if_pos (by norm_num)]
  rw [show (101:Nat) + 1 = 102 from rfl,
    List.take_of_length_le (by rw [cx_closes_len])]
  unfold cxCloses
  rw [show (102:Nat) - 100 = 2 from rfl,
    List.drop_append_of_le_length (by simp), List.drop_replicate,
    List.sum_append, cx_sum_repl]
  norm_num

theorem cx_c99 : cxCloses.get? 99 = some 10 := by
  unfold cxCloses
  rw [List.get?_eq_getElem?, List.getElem?_append]
  rw [if_pos (by simp), List.getElem?_replicate, if_pos (by norm_num)]

theorem cx_c100 : cxCloses.get? 100 = some 10 := by
  unfold cxCloses
  rw [List.get?_eq_getElem?, List.getElem?_append]
  rw [if_pos (by simp), List.getElem?_replicate, if_pos (by norm_num)]

theorem cx_c101 : cxCloses.get? 101 = some 20 := by
  unfold cxCloses
  rw [List.get?_eq_getElem?, List.getElem?_append_right (by simp)]
  simp

/-- Counterexample to C2 as stated: 101 closes at 10 followed by one at
20.  In the final adjacent pair of the lookback window the close sits
exactly on the MA (10 = 10, i.e. at-or-below) and then moves strictly
above it (20 > 101/10), so the claim's at-or-below reading fires
bullish, but `detect_ma_crossover` returns no signal. -/
theorem C2_counterexample :
    detect_ma_crossover cxBars MAPeriod.w20 2 = none ∧
    MAPeriod.w20.days + 2 ≤ cxBars.length ∧
    (cxBars.map (·.close)).get? (cxBars.length - 2) = some 10 ∧
    (moving_average (cxBars.map (·.close)) MAPeriod.w20.days MAType.sma).get?
        (cxBars.length - 2) = some (some 10) ∧
    (cxBars.map (·.close)).get? (cxBars.length - 1) = some 20 ∧
    (moving_average (cxBars.map (·.close)) MAPeriod.w20.days MAType.sma).get?
        (cxBars.length - 1) = some (some (101/10)) ∧
    ((10:ℚ) ≤ 10 ∧ ((101:ℚ)/10) < 20) := by
  have hblen : cxBars.length = 102 := by simp [cxBars]
  have hdays : MAPeriod.w20.days = 100 := rfl
  refine ⟨?_, ?_, ?_, ?_, ?_, ?_, by norm_num⟩
  · unfold detect_ma_crossover
    rw [if_neg (by rw [hblen, hdays]; norm_num)]
    dsimp only
    rw [cx_closes_eq, cx_closes_len, hdays]
    rw [show (102:Nat) - 1 = 101 from rfl, show (102:Nat) - 2 = 100 from rfl]
    rw [cx_ma101, cx_ma100]
    dsimp only
    rw [show List.range 2 = [0, 1] from rfl]
    rw [List.findSome?_cons]
    have hf0 : crossAt cxCloses (moving_average cxCloses 100 MAType.sma)
        (102 - 2 + 0 - 1) (102 - 2 + 0) = none := by
      unfold crossAt
      rw [show (102:Nat) - 2 + 0 - 1 = 99 from rfl,
        show (102:Nat) - 2 + 0 = 100 from rfl,
        cx_c99, cx_c100, cx_ma99, cx_ma100]
      norm_num
    have hf1 : crossAt cxCloses (moving_average cxCloses 100 MAType.sma)
        (100 + 1 - 1) (100 + 1) = none := by
      unfold crossAt
      rw [show (100:Nat) + 1 - 1 = 100 from rfl,
        show (100:Nat) + 1 = 101 from rfl,
        cx_c100, cx_c101, cx_ma100, cx_ma101]
      norm_num
    rw [hf0]
    show List.findSome? (fun k => crossAt cxCloses
      (moving_average cxCloses 100 MAType.sma) (100 + k - 1) (100 + k)) [1] = none
    rw [List.findSome?_cons]
    rw [hf1]
    rfl
  · rw [hblen, hdays]
  · rw [cx_closes_eq, hblen]
    exact cx_c100
  · rw [cx_closes_eq, hblen, hdays]
    exact cx_ma100
  · rw [cx_closes_eq, hblen]
    exact cx_c101
  · rw [cx_closes_eq, hblen, hdays]
    exact cx_ma101

/-! ### C4: daily-to-weekly OHLCV resampling -/

theorem lookupG_cons {α : Type} (kv : (Int × Int) × α)
    (rest : List ((Int × Int) × α)) (k2 : Int × Int) :
    lookupG k2 (kv :: rest) = if kv.1 = k2 then some kv.2 else lookupG k2 rest := by
  by_cases h : kv.1 = k2
  · unfold lookupG
    rw [List.find?_cons_of_pos _ (by simpa using h), if_pos h]
    rfl
  · unfold lookupG
    rw [List.find?_cons_of_neg _ (by simpa using h), if_neg h]

theorem lookupG_insertGroup (m : List ((Int × Int) × List OHLCV))
    (k k2 : Int × Int) (b : OHLCV) :
    lookupG k2 (insertGroup m k b)
      = if k = k2 then some ((lookupG k2 m).getD [] ++ [b])
        else lookupG k2 m := by
  induction m with
  | nil =>
    unfold insertGroup
    rw [lookupG_cons]
    by_cases h : k = k2
    · rw [if_pos (by simpa using h), if_pos h]
      rfl
    · rw [if_neg (by simpa using h), if_neg h]
  | cons kv rest ih =>
    unfold insertGroup
    by_cases h1 : kv.1 = k
    · rw [if_pos h1, lookupG_cons, lookupG_cons]
      by_cases h2 : k = k2
      · rw [if_pos (by simpa [h1] using h2), if_pos (h1.trans h2), if_pos h2]
        rfl
      · rw [if_neg (by simpa [h1] using h2), if_neg (fun hc => h2 (h1 ▸ hc)),
          if_neg h2]
    · rw [if_neg h1, lookupG_cons, lookupG_cons]
      by_cases h3 : kv.1 = k2
      · have h4 : ¬ (k = k2) := fun hc => h1 (by rw [hc]; exact h3)
        rw [if_pos h3, if_pos h3, if_neg h4]
      · rw [if_neg h3, if_neg h3, ih]

theorem keys_insertGroup (m : List ((Int × Int) × List OHLCV))
    (k : Int × Int) (b : OHLCV) :
    (insertGroup m k b).map Prod.fst
      = if k ∈ m.map Prod.fst then m.map Prod.fst
        else m.map Prod.fst ++ [k] := by
  induction m with
  | nil => simp [insertGroup]
  | cons kv rest ih =>
    unfold insertGroup
    by_cases h1 : kv.1 = k
    · rw [if_pos h1]
      have hk : k ∈ (kv :: rest).map Prod.fst := by
        simp [← h1]
      rw [if_pos hk]
      simp [h1]
    · rw [if_neg h1]
      by_cases h2 : k ∈ rest.map Prod.fst
      · have hk : k ∈ (kv :: rest).map Prod.fst := by simp [h2]
        rw [if_pos hk]
        simp only [List.map_cons, ih, if_pos h2]
      · have hk : ¬ k ∈ (kv :: rest).map Prod.fst := by
          simp only [List.map_cons, List.mem_cons]
          rintro (hc | hc)
          · exact h1 hc.symm
          · exact h2 hc
        rw [if_neg hk]
        simp only [List.map_cons, ih, if_neg h2, List.cons_append]

theorem mem_keys_insertGroup (m : List ((Int × Int) × List OHLCV))
    (k kb : Int × Int) (b : OHLCV) :
    k ∈ (insertGroup m kb b).map Prod.fst ↔ k ∈ m.map Prod.fst ∨ kb = k := by
  rw [keys_insertGroup]
  split_ifs with h
  · constructor
    · intro h2; exact Or.inl h2
    · rintro (h2 | h2)
      · exact h2
      · rw [← h2]; exact h
  · rw [List.mem_append]
    simp [eq_comm]

theorem nodup_keys_insertGroup (m : List ((Int × Int) × List OHLCV))
    (k : Int × Int) (b : OHLCV) (h : (m.map Prod.fst).Nodup) :
    ((insertGroup m k b).map Prod.fst).Nodup := by
  rw [keys_insertGroup]
  split_ifs with hmem
  · exact h
  · rw [List.nodup_append]
    exact ⟨h, List.nodup_singleton k, by simpa using hmem⟩

theorem lookupG_groupWeekly_aux (k : Int × Int) (l : List OHLCV) :
    ∀ m : List ((Int × Int) × List OHLCV),
      lookupG k (l.foldl (fun m2 b => insertGroup m2 (isoKey b.timestamp) b) m)
        = match lookupG k m with
          | some g => some (g ++ l.filter (fun x => isoKey x.timestamp = k))
          | none =>
            if l.filter (fun x => isoKey x.timestamp = k) = [] then none
            else some (l.filter (fun x => isoKey x.timestamp = k)) := by
  induction l with
  | nil =>
    intro m
    cases h : lookupG k m <;> simp [h]
  | cons b rest ih =>
    intro m
    rw [List.foldl_cons, ih, lookupG_insertGroup, List.filter_cons]
    by_cases hb : isoKey b.timestamp = k
    · have hb2 : decide (isoKey b.timestamp = k) = true := by simpa using hb
      rw [if_pos hb, if_pos hb2]
      cases h : lookupG k m with
      | none => simp
      | some g => simp
    · have hb2 : ¬ (decide (isoKey b.timestamp = k) = true) := by simpa using hb
      rw [if_neg hb, if_neg hb2]

theorem nodup_keys_groupWeekly_aux (l : List OHLCV) :
    ∀ m : List ((Int × Int) × List OHLCV), (m.map Prod.fst).Nodup →
      (((l.foldl (fun m2 b => insertGroup m2 (isoKey b.timestamp) b) m)).map
        Prod.fst).Nodup := by
  induction l with
  | nil => intro m h; exact h
  | cons b rest ih =>
    intro m h
    rw [List.foldl_cons]
    exact ih _ (nodup_keys_insertGroup m _ b h)

theorem mem_keys_groupWeekly_aux (k : Int × Int) (l : List OHLCV) :
    ∀ m : List ((Int × Int) × List OHLCV),
      (k ∈ ((l.foldl (fun m2 b => insertGroup m2 (isoKey b.timestamp) b) m)).map
          Prod.fst
        ↔ k ∈ m.map Prod.fst ∨ ∃ x ∈ l, isoKey x.timestamp = k) := by
  induction l with
  | nil => intro m; simp
  | cons b rest ih =>
    intro m
    rw [List.foldl_cons, ih, mem_keys_insertGroup]
    constructor
    · rintro ((h | h) | h)
      · exact Or.inl h
      · exact Or.inr ⟨b, by simp, h⟩
      · obtain ⟨x, hx, hk⟩ := h
        exact Or.inr ⟨x, by simp [hx], hk⟩
    · rintro (h | h)
      · exact Or.inl (Or.inl h)
      · obtain ⟨x, hx, hk⟩ := h
        rcases List.mem_cons.mp hx with rfl | hx2
        · exact Or.inl (Or.inr hk)
        · exact Or.inr ⟨x, hx2, hk⟩

theorem lookupG_of_mem {α : Type} (m : List ((Int × Int) × α))
    (k : Int × Int) (g : α) (hnd : (m.map Prod.fst).Nodup)
    (hm : (k, g) ∈ m) : lookupG k m = some g := by
  induction m with
  | nil => simp at hm
  | cons kv rest ih =>
    rcases List.mem_cons.mp hm with rfl | hm2
    · rw [lookupG_cons, if_pos rfl]
    · have hk : k ∈ rest.map Prod.fst :=
        List.mem_map.mpr ⟨(k, g), hm2, rfl⟩
      have hne : ¬ (kv.1 = k) := by
        intro hc
        rw [List.map_cons, List.nodup_cons] at hnd
        exact hnd.1 (hc ▸ hk)
      rw [lookupG_cons, if_neg hne]
      exact ih (by rw [List.map_cons, List.nodup_cons] at hnd; exact hnd.2) hm2

theorem groupWeekly_entry (l : List OHLCV) (k : Int × Int) (g : List OHLCV)
    (hm : (k, g) ∈ groupWeekly l) :
    g = l.filter (fun x => isoKey x.timestamp = k) ∧ g ≠ [] := by
  have hnd : ((groupWeekly l).map Prod.fst).Nodup :=
    nodup_keys_groupWeekly_aux l [] (by exact List.nodup_nil)
  have hlk : lookupG k (groupWeekly l) = some g := lookupG_of_mem _ _ _ hnd hm
  unfold groupWeekly at hlk
  rw [lookupG_groupWeekly_aux] at hlk
  by_cases hf : l.filter (fun x => isoKey x.timestamp = k) = []
  · rw [if_pos hf] at hlk
    exact Option.noConfusion hlk
  · rw [if_neg hf] at hlk
    have heq : l.filter (fun x => isoKey x.timestamp = k) = g :=
      Option.some.inj hlk
    exact ⟨heq.symm, heq ▸ hf⟩

/-- `max(...)` over a nonempty Python generator (the `[]` case is
unreachable filler). -/
def maxQ : List ℚ → ℚ
  | [] => 0
  | x :: xs => xs.foldl max x

/-- `min(...)` over a nonempty Python generator. -/
def minQ : List ℚ → ℚ
  | [] => 0
  | x :: xs => xs.foldl min x

theorem aggWeek_spec (g : List OHLCV) (hne : g ≠ []) :
    ∃ hd lastB, g.head? = some hd ∧ g.getLast? = some lastB ∧
      aggWeek g = ⟨lastB.timestamp, hd.open_, maxQ (g.map (·.high)),
        minQ (g.map (·.low)), lastB.close, (g.map (·.volume)).sum⟩ := by
  cases g with
  | nil => exact absurd rfl hne
  | cons b rest =>
    refine ⟨b, (b :: rest).getLast (by simp), rfl,
      List.getLast?_eq_getLast _ (by simp), ?_⟩
    have hh : rest.foldl (fun a x => max a x.high) b.high
        = maxQ ((b :: rest).map (·.high)) := by
      show _ = (rest.map (·.high)).foldl max b.high
      rw [List.foldl_map]
    have hlo : rest.foldl (fun a x => min a x.low) b.low
        = minQ ((b :: rest).map (·.low)) := by
      show _ = (rest.map (·.low)).foldl min b.low
      rw [List.foldl_map]
    show OHLCV.mk ((b :: rest).getLast (by simp)).timestamp b.open_
        (rest.foldl (fun a x => max a x.high) b.high)
        (rest.foldl (fun a x => min a x.low) b.low)
        ((b :: rest).getLast (by simp)).close
        (((b :: rest).map (·.volume)).sum) = _
    rw [hh, hlo]

theorem keyLt_of_keyLe_ne (a b : Int × Int) (h1 : keyLe a b) (h2 : a ≠ b) :
    keyLt a b := by
  unfold keyLe at h1
  unfold keyLt
  rcases h1 with h | ⟨he, h⟩
  · exact Or.inl h
  · refine Or.inr ⟨he, lt_of_le_of_ne h ?_⟩
    intro hc
    exact h2 (Prod.ext he hc)

theorem resample_mem_spec (ohlcv : List OHLCV) (wb : OHLCV)
    (hwb : wb ∈ resample_to_weekly ohlcv) :
    ∃ (k : Int × Int) (hd lastB : OHLCV),
      isoKey wb.timestamp = k ∧
      (ohlcv.filter (fun x => isoKey x.timestamp = k)).head? = some hd ∧
      (ohlcv.filter (fun x => isoKey x.timestamp = k)).getLast? = some lastB ∧
      wb.timestamp = lastB.timestamp ∧ wb.open_ = hd.open_ ∧
      wb.close = lastB.close ∧
      wb.high = maxQ ((ohlcv.filter (fun x => isoKey x.timestamp = k)).map (·.high)) ∧
      wb.low = minQ ((ohlcv.filter (fun x => isoKey x.timestamp = k)).map (·.low)) ∧
      wb.volume = ((ohlcv.filter (fun x => isoKey x.timestamp = k)).map (·.volume)).sum := by
  unfold resample_to_weekly at hwb
  by_cases hemp : ohlcv = []
  · rw [if_pos hemp] at hwb
    simp at hwb
  · rw [if_neg hemp] at hwb
    obtain ⟨kv, hkv, hagg⟩ := List.mem_map.mp hwb
    have hkv2 : kv ∈ groupWeekly ohlcv := (List.mem_insertionSort _).mp hkv
    obtain ⟨hfil, hne⟩ := groupWeekly_entry ohlcv kv.1 kv.2 hkv2
    obtain ⟨hd, lastB, hhd, hlast, hval⟩ := aggWeek_spec kv.2 hne
    have hlmem : lastB ∈ kv.2 := List.mem_of_getLast?_eq_some hlast
    have hlkey : isoKey lastB.timestamp = kv.1 := by
      rw [hfil] at hlmem
      have := List.of_mem_filter hlmem
      simpa using this
    refine ⟨kv.1, hd, lastB, ?_, ?_, ?_, ?_, ?_, ?_, ?_, ?_, ?_⟩
    · rw [← hagg, hval]; exact hlkey
    · rw [← hfil]; exact hhd
    · rw [← hfil]; exact hlast
    · rw [← hagg, hval]
    · rw [← hagg, hval]
    · rw [← hagg, hval]
    · rw [← hagg, hval, ← hfil]
    · rw [← hagg, hval, ← hfil]
    · rw [← hagg, hval, ← hfil]

theorem resample_covers (ohlcv : List OHLCV) (x : OHLCV) (hx : x ∈ ohlcv) :
    ∃ wb ∈ resample_to_weekly ohlcv,
      isoKey wb.timestamp = isoKey x.timestamp := by
  have hemp : ohlcv ≠ [] := by
    intro hc
    rw [hc] at hx
    simp at hx
  have hk : isoKey x.timestamp ∈ (groupWeekly ohlcv).map Prod.fst := by
    unfold groupWeekly
    rw [mem_keys_groupWeekly_aux]
    exact Or.inr ⟨x, hx, rfl⟩
  obtain ⟨kv, hkv, hfst⟩ := List.mem_map.mp hk
  obtain ⟨hfil, hne⟩ := groupWeekly_entry ohlcv kv.1 kv.2 hkv
  obtain ⟨hd, lastB, hhd, hlast, hval⟩ := aggWeek_spec kv.2 hne
  refine ⟨aggWeek kv.2, ?_, ?_⟩
  · unfold resample_to_weekly
    rw [if_neg hemp]
    exact List.mem_map.mpr ⟨kv, (List.mem_insertionSort _).mpr hkv, rfl⟩
  · rw [hval]
    show isoKey lastB.timestamp = isoKey x.timestamp
    have hlmem : lastB ∈ kv.2 := List.mem_of_getLast?_eq_some hlast
    rw [hfil] at hlmem
    have h2 := List.of_mem_filter hlmem
    rw [hfst] at h2
    simpa using h2

theorem resample_sorted (ohlcv : List OHLCV) :
    ((resample_to_weekly ohlcv).map (fun b => isoKey b.timestamp)).Pairwise keyLt := by
  unfold resample_to_weekly
  by_cases hemp : ohlcv = []
  · rw [if_pos hemp]
    simp
  · rw [if_neg hemp]
    have hsorted : ((groupWeekly ohlcv).insertionSort groupLe).Sorted groupLe :=
      List.sorted_insertionSort groupLe (groupWeekly ohlcv)
    have hnd : (((groupWeekly ohlcv).insertionSort groupLe).map Prod.fst).Nodup := by
      have hperm : List.Perm ((groupWeekly ohlcv).insertionSort groupLe)
          (groupWeekly ohlcv) :=
        List.perm_insertionSort groupLe (groupWeekly ohlcv)
      have hnd0 : ((groupWeekly ohlcv).map Prod.fst).Nodup :=
        nodup_keys_groupWeekly_aux ohlcv [] (by exact List.nodup_nil)
      exact ((hperm.map Prod.fst).nodup_iff).mpr hnd0
    have hmapeq : (((groupWeekly ohlcv).insertionSort groupLe).map
          (fun kv => aggWeek kv.2)).map (fun b => isoKey b.timestamp)
        = ((groupWeekly ohlcv).insertionSort groupLe).map Prod.fst := by
      rw [List.map_map]
      apply List.map_congr_left
      intro kv hkv
      obtain ⟨hfil, hne⟩ := groupWeekly_entry ohlcv kv.1 kv.2
        ((List.mem_insertionSort _).mp hkv)
      obtain ⟨hd, lastB, hhd, hlast, hval⟩ := aggWeek_spec kv.2 hne
      show isoKey (aggWeek kv.2).timestamp = kv.1
      rw [hval]
      show isoKey lastB.timestamp = kv.1
      have hlmem : lastB ∈ kv.2 := List.mem_of_getLast?_eq_some hlast
      rw [hfil] at hlmem
      have h2 := List.of_mem_filter hlmem
      simpa using h2
    rw [hmapeq]
    have hle : (((groupWeekly ohlcv).insertionSort groupLe).map Prod.fst).Pairwise keyLe := by
      rw [List.pairwise_map]
      exact hsorted
    have hne2 : (((groupWeekly ohlcv).insertionSort groupLe).map Prod.fst).Pairwise (· ≠ ·) :=
      hnd
    exact (hle.and hne2).imp (fun h => keyLt_of_keyLe_ne _ _ h.1 h.2)

/-- Ten consecutive daily bars starting Monday 2024-01-01, with distinct
open/high/low/close/volume per day. -/
def ex10 : List OHLCV :=
  [⟨⟨2024, 1, 1⟩, 1, 101, 49, 1, 1⟩,
   ⟨⟨2024, 1, 2⟩, 2, 102, 48, 2, 2⟩,
   ⟨⟨2024, 1, 3⟩, 3, 103, 47, 3, 3⟩,
   ⟨⟨2024, 1, 4⟩, 4, 104, 46, 4, 4⟩,
   ⟨⟨2024, 1, 5⟩, 5, 105, 45, 5, 5⟩,
   ⟨⟨2024, 1, 6⟩, 6, 106, 44, 6, 6⟩,
   ⟨⟨2024, 1, 7⟩, 7, 107, 43, 7, 7⟩,
   ⟨⟨2024, 1, 8⟩, 8, 108, 42, 8, 8⟩,
   ⟨⟨2024, 1, 9⟩, 9, 109, 41, 9, 9⟩,
   ⟨⟨2024, 1, 10⟩, 10, 110, 40, 10, 10⟩]

/-- C4: weekly resampling groups daily bars by (ISO year, ISO week) of
their timestamps — each weekly bar aggregates exactly the input bars of
its week, with open from the group's first bar, close and timestamp from
its last, max high, min low and summed volume; every input week yields a
weekly bar; weekly bars come out in strictly ascending week-key order;
and 10 consecutive daily bars starting Monday yield exactly the 2
expected weekly bars, the first aggregating days 1–7. -/
theorem C4_weekly_resampling :
    (∀ (ohlcv : List OHLCV), ohlcv ≠ [] →
      ((∀ wb ∈ resample_to_weekly ohlcv,
        ∃ (k : Int × Int) (hd lastB : OHLCV),
          isoKey wb.timestamp = k ∧
          (ohlcv.filter (fun x => isoKey x.timestamp = k)).head? = some hd ∧
          (ohlcv.filter (fun x => isoKey x.timestamp = k)).getLast? = some lastB ∧
          wb.timestamp = lastB.timestamp ∧ wb.open_ = hd.open_ ∧
          wb.close = lastB.close ∧
          wb.high = maxQ ((ohlcv.filter
            (fun x => isoKey x.timestamp = k)).map (·.high)) ∧
          wb.low = minQ ((ohlcv.filter
            (fun x => isoKey x.timestamp = k)).map (·.low)) ∧
          wb.volume = ((ohlcv.filter
            (fun x => isoKey x.timestamp = k)).map (·.volume)).sum) ∧
       (∀ x ∈ ohlcv, ∃ wb ∈ resample_to_weekly ohlcv,
          isoKey wb.timestamp = isoKey x.timestamp) ∧
       ((resample_to_weekly ohlcv).map
          (fun b => isoKey b.timestamp)).Pairwise keyLt)) ∧
    resample_to_weekly ex10 =
      [⟨⟨2024, 1, 7⟩, 1, 107, 43, 7, 28⟩,
       ⟨⟨2024, 1, 10⟩, 8, 110, 40, 10, 27⟩] := by
  refine ⟨fun ohlcv _ => ⟨?_, ?_, ?_⟩, by decide⟩
  · intro wb hwb
    exact resample_mem_spec ohlcv wb hwb
  · intro x hx
    exact resample_covers ohlcv x hx
  · exact resample_sorted ohlcv

theorem C4_witness :
    ((resample_to_weekly ex10).map
        (fun b => isoKey b.timestamp)).Pairwise keyLt :=
  (C4_weekly_resampling.1 ex10 (by decide)).2.2

end Argus
